import Mathlib

/-!
# The `vicharak` circular queue character device

A shallow embedding of `src/circular_queue.c` (the ioctl handler of the driver) together
with the parts of `src/reader.c` that the statements below refer to.

* C `int` values are integers reduced to 32 bits by `wrapInt` after every arithmetic
  operation of the source.
* Memory blocks (the kernel buffer, the caller's data region) are byte lists; a `memcpy`
  that leaves a block, a copy of one or more bytes through a NULL buffer, and a trapping `%`
  make the call end in `result.oops`.
* The mutex makes every critical section atomic, so one call is a function of the queue
  state; what happens while a blocking call sleeps is supplied as a list of `wait_result`s.
-/

set_option linter.dupNamespace false

namespace CircularQueue

/-! ## Machine integers and errno values -/

/-- A C `char`. -/
abbrev byte := UInt8

/-- Reduction of an integer to the range of a 32-bit two's-complement C `int`. -/
def wrapInt (x : Int) : Int := (x + 2147483648) % 4294967296 - 2147483648

def INT_MIN : Int := -2147483648

def INT_MAX : Int := 2147483647

/-- The C operator `%` on `int`: the remainder of the truncating division; `none` where the
division traps (a zero divisor, or `INT_MIN % -1`). -/
def c_mod (a b : Int) : Option Int :=
  if b = 0 ∨ (a = INT_MIN ∧ b = -1) then none else some (Int.tmod a b)

def EAGAIN : Int := 11

def ENOMEM : Int := 12

def EFAULT : Int := 14

def EBUSY : Int := 16

def EINVAL : Int := 22

def ERESTARTSYS : Int := 512

/-- The `O_NONBLOCK` bit of `file->f_flags` (octal 04000). -/
def O_NONBLOCK : Nat := 2048

/-! ## Command codes (`_IOW`, `_IOR` of the kernel headers, 64-bit layout) -/

/-- The kernel's `_IOC(dir, type, nr, size)` encoding of a command code. -/
def _IOC (dir type nr size : Nat) : Nat :=
  (dir <<< 30) ||| (size <<< 16) ||| (type <<< 8) ||| nr

/-- `_IOW(type, nr, T)` with `size = sizeof(T)`. -/
def _IOW (type nr size : Nat) : Nat := _IOC 1 type nr size

/-- `_IOR(type, nr, T)` with `size = sizeof(T)`. -/
def _IOR (type nr size : Nat) : Nat := _IOC 2 type nr size

/-- `_IOW('a', 'a', int)`. -/
def SET_SIZE_OF_QUEUE : Nat := _IOW 97 97 4

/-- `_IOW('a', 'b', struct data)`. -/
def PUSH_DATA : Nat := _IOW 97 98 16

/-- `_IOR('a', 'c', struct data)`. -/
def POP_DATA : Nat := _IOR 97 99 16

/-! ## Data model -/

/-- `struct data`: the transfer record of the caller. `data` is the memory region the
pointer `data` refers to, as far as it is accessible. -/
structure data where
  length : Int
  data : List byte
deriving DecidableEq

/-- `struct circular_queue` without the lock and the wait queue. `buffer = none` is the
NULL pointer; otherwise it is the allocated block. -/
structure circular_queue where
  buffer : Option (List byte)
  size : Int
  head : Int
  tail : Int
  count : Int
deriving DecidableEq

/-- `struct file`, reduced to the flags the handler reads. -/
structure file where
  f_flags : Nat

/-- The state set up by `circular_queue_init`. -/
def circular_queue_init : circular_queue :=
  { buffer := none, size := 0, head := 0, tail := 0, count := 0 }

/-! ## Kernel services -/

/-- The largest block `kmalloc` hands out (`1 << (MAX_PAGE_ORDER + PAGE_SHIFT)` with the
default page order 10 and 4 KiB pages). -/
def KMALLOC_MAX_SIZE : Int := 4194304

/-- The state of the allocator at a `kmalloc` call: whether memory is available, and the
bytes found in the (uninitialised) block it returns. -/
structure allocator where
  available : Bool
  fill : Nat → byte

/-- `kmalloc(size, GFP_KERNEL)` with the `int` argument converted to `size_t`: a negative
`size` is a request beyond every limit and fails; a request of 0 bytes returns a non-NULL
pointer to an empty block. -/
def kmalloc (mm : allocator) (size : Int) : Option (List byte) :=
  if mm.available = true ∧ 0 ≤ size ∧ size ≤ KMALLOC_MAX_SIZE then
    some ((List.range size.toNat).map mm.fill)
  else none

/-- `memcpy(dst + doff, src + soff, n)` on two memory blocks, `n` being an `int` converted
to `size_t` (so a negative `n` is an enormous length). The result is the destination block
after the copy, `none` when the copy leaves one of the two blocks. -/
def memcpy (dst : List byte) (doff : Int) (src : List byte) (soff : Int) (n : Int) :
    Option (List byte) :=
  if 0 ≤ doff ∧ 0 ≤ soff ∧ 0 ≤ n ∧ doff + n ≤ dst.length ∧ soff + n ≤ src.length then
    some (dst.take doff.toNat ++ (src.drop soff.toNat).take n.toNat ++
      dst.drop (doff + n).toNat)
  else none

/-- What one `wait_event_interruptible` of a sleeping caller ends with: a signal, or a
wake-up after which the caller takes the lock again and finds the queue in state `q`. -/
inductive wait_result where
  | interrupted
  | woken (q : circular_queue)

/-- How a call of `device_ioctl` ends: it returns `code` leaving the queue in state `q` and
the caller's record as `user`; or it sleeps with no further event (`blocked`); or the
kernel faults (`oops`). -/
inductive result where
  | ret (code : Int) (q : circular_queue) (user : Option data)
  | blocked (q : circular_queue)
  | oops
deriving DecidableEq

/-! ## The handler `device_ioctl` -/

/-- Lines 69-76: the loop `while (queue.count == queue.size)` of `PUSH_DATA`. `Sum.inr q`
is the state in which the loop is left with the lock held. -/
def push_wait (f : file) (user : Option data) :
    circular_queue → List wait_result → Sum result circular_queue
  | queue, [] =>
    if queue.count = queue.size then
      if f.f_flags &&& O_NONBLOCK ≠ 0 then Sum.inl (result.ret (-EAGAIN) queue user)
      else Sum.inl (result.blocked queue)
    else Sum.inr queue
  | queue, ev :: rest =>
    if queue.count = queue.size then
      if f.f_flags &&& O_NONBLOCK ≠ 0 then Sum.inl (result.ret (-EAGAIN) queue user)
      else
        match ev with
        | wait_result.interrupted => Sum.inl (result.ret (-ERESTARTSYS) queue user)
        | wait_result.woken q => push_wait f user q rest
    else Sum.inr queue

/-- Lines 100-107: the loop `while (queue.count == 0)` of `POP_DATA`. -/
def pop_wait (f : file) (user : Option data) :
    circular_queue → List wait_result → Sum result circular_queue
  | queue, [] =>
    if queue.count = 0 then
      if f.f_flags &&& O_NONBLOCK ≠ 0 then Sum.inl (result.ret (-EAGAIN) queue user)
      else Sum.inl (result.blocked queue)
    else Sum.inr queue
  | queue, ev :: rest =>
    if queue.count = 0 then
      if f.f_flags &&& O_NONBLOCK ≠ 0 then Sum.inl (result.ret (-EAGAIN) queue user)
      else
        match ev with
        | wait_result.interrupted => Sum.inl (result.ret (-ERESTARTSYS) queue user)
        | wait_result.woken q => pop_wait f user q rest
    else Sum.inr queue

/-- Lines 78-79 and 109-110: `if (user_data.length > limit) user_data.length = limit;`. -/
def clamp_length (length limit : Int) : Int :=
  if length > limit then limit else length

/-- `memcpy(dst + doff, src + soff, n)` into the kernel buffer, whose pointer `dst` may be
NULL (`none`): a copy of 0 bytes through NULL touches nothing, any other copy through NULL
faults. The result is what `dst` points to after the copy, `none` on a fault. -/
def memcpy_to (dst : Option (List byte)) (doff : Int) (src : List byte) (soff n : Int) :
    Option (Option (List byte)) :=
  match dst with
  | none => if n = 0 then some none else none
  | some block => (memcpy block doff src soff n).map some

/-- `memcpy(dst + doff, src + soff, n)` out of the kernel buffer, whose pointer `src` may be
NULL (`none`): a copy of 0 bytes through NULL touches nothing, any other copy through NULL
faults. The result is the destination block after the copy, `none` on a fault. -/
def memcpy_from (dst : List byte) (doff : Int) (src : Option (List byte)) (soff n : Int) :
    Option (List byte) :=
  match src with
  | none => if n = 0 then some dst else none
  | some block => memcpy dst doff block soff n

/-- Lines 81-87 of `PUSH_DATA`: the copy into the buffer, in two parts where it passes the
end of the buffer. `length` is the clamped `user_data.length`. The result is the buffer
after the copy (still NULL where `queue.buffer` is NULL and nothing was copied). -/
def push_copy (queue : circular_queue) (user_data : data) (length : Int) :
    Option (Option (List byte)) :=
  if wrapInt (queue.tail + length) > queue.size then
    let first_part := wrapInt (queue.size - queue.tail)
    (memcpy_to queue.buffer queue.tail user_data.data 0 first_part).bind fun b =>
      memcpy_to b 0 user_data.data first_part (wrapInt (length - first_part))
  else memcpy_to queue.buffer queue.tail user_data.data 0 length

/-- Lines 78-93: the critical section of `PUSH_DATA` once the loop is left. The record of
the caller is only read: the clamped length lives in the kernel's local copy. -/
def push_data (queue : circular_queue) (user_data : data) : result :=
  let length := clamp_length user_data.length (wrapInt (queue.size - queue.count))
  match push_copy queue user_data length, c_mod (wrapInt (queue.tail + length)) queue.size with
  | some b, some tail =>
    result.ret 0
      { buffer := b, size := queue.size, head := queue.head, tail := tail,
        count := wrapInt (queue.count + length) }
      (some user_data)
  | _, _ => result.oops

/-- Lines 112-118 of `POP_DATA`: the copy out of the buffer into the region the record
points to, in two parts where it passes the end of the buffer. -/
def pop_copy (queue : circular_queue) (user_data : data) (length : Int) :
    Option (List byte) :=
  if wrapInt (queue.head + length) > queue.size then
    let first_part := wrapInt (queue.size - queue.head)
    (memcpy_from user_data.data 0 queue.buffer queue.head first_part).bind fun out =>
      memcpy_from out first_part queue.buffer 0 (wrapInt (length - first_part))
  else memcpy_from user_data.data 0 queue.buffer queue.head length

/-- Lines 109-124: the critical section of `POP_DATA` once the loop is left. The bytes go
to the region the record points to; the record itself is not written back. -/
def pop_data (queue : circular_queue) (user_data : data) : result :=
  let length := clamp_length user_data.length queue.count
  match pop_copy queue user_data length, c_mod (wrapInt (queue.head + length)) queue.size with
  | some out, some head =>
    result.ret 0
      { buffer := queue.buffer, size := queue.size, head := head, tail := queue.tail,
        count := wrapInt (queue.count - length) }
      (some { length := user_data.length, data := out })
  | _, _ => result.oops

/-- Lines 50-62: `SET_SIZE_OF_QUEUE`. The old buffer is freed and `size` overwritten
before the allocation is attempted. -/
def set_size_of_queue (mm : allocator) (queue : circular_queue) (arg : Nat)
    (user : Option data) : result :=
  let size := wrapInt arg
  match kmalloc mm size with
  | none =>
    result.ret (-ENOMEM)
      { buffer := none, size := size, head := queue.head, tail := queue.tail,
        count := queue.count }
      user
  | some b =>
    result.ret 0 { buffer := some b, size := size, head := 0, tail := 0, count := 0 } user

/-- `device_ioctl(file, cmd, arg)` on the queue state `queue`. `user` is the record that
`copy_from_user` finds at address `arg` (`none` when it is not readable), `mm` the
allocator, `waits` what the sleeps of this call end with. -/
def device_ioctl (f : file) (mm : allocator) (waits : List wait_result)
    (queue : circular_queue) (cmd : Nat) (arg : Nat) (user : Option data) : result :=
  if cmd = SET_SIZE_OF_QUEUE then set_size_of_queue mm queue arg user
  else if cmd = PUSH_DATA then
    match user with
    | none => result.ret (-EFAULT) queue user
    | some user_data =>
      match push_wait f user queue waits with
      | Sum.inl r => r
      | Sum.inr q => push_data q user_data
  else if cmd = POP_DATA then
    match user with
    | none => result.ret (-EFAULT) queue user
    | some user_data =>
      match pop_wait f user queue waits with
      | Sum.inl r => r
      | Sum.inr q => pop_data q user_data
  else result.ret (-EINVAL) queue user


/-! ## States and their contents -/

/-- The states the statements below quantify over, as the data model describes them: the
buffer is an allocated block of `size` bytes (hence of at most `KMALLOC_MAX_SIZE` bytes),
`0 < size`, `0 <= head < size`, `0 <= count <= size` and
`tail == (head + count) mod size`. -/
def Valid (q : circular_queue) : Prop :=
  (q.buffer.map fun b => (b.length : Int)) = some q.size ∧ q.size ≤ KMALLOC_MAX_SIZE ∧
    0 < q.size ∧ 0 ≤ q.head ∧ q.head < q.size ∧ 0 ≤ q.count ∧ q.count ≤ q.size ∧
    q.tail = (q.head + q.count) % q.size

instance (q : circular_queue) : Decidable (Valid q) := by
  unfold Valid
  infer_instance

/-- The contents of a queue state, as the specification defines them: the `count` bytes
`buffer[head]`, `buffer[(head + 1) mod size]`, ... taken in order. -/
def contents (q : circular_queue) : List byte :=
  (List.range q.count.toNat).map fun (i : Nat) =>
    (q.buffer.getD []).getD ((q.head + (i : Int)) % q.size).toNat 0


/-! ## Sequences of operations -/

/-- The states reached from the initial state by configure, push and pop calls with
non-negative lengths in which every configure returns 0 (its allocation succeeds); push
and pop may end in any return code. The states a sleeping caller wakes up in are states
reached in the same way, by the calls of the other callers. -/
inductive Reachable : circular_queue → Prop
  | init : Reachable circular_queue_init
  | step (f : file) (mm : allocator) (waits : List wait_result) (q : circular_queue)
      (cmd arg : Nat) (user : Option data) (c : Int) (q' : circular_queue)
      (u : Option data) :
      Reachable q →
      (∀ w, wait_result.woken w ∈ waits → Reachable w) →
      (cmd = SET_SIZE_OF_QUEUE ∨ cmd = PUSH_DATA ∨ cmd = POP_DATA) →
      (cmd = SET_SIZE_OF_QUEUE → c = 0) →
      (∀ d, user = some d → 0 ≤ d.length) →
      device_ioctl f mm waits q cmd arg user = result.ret c q' u →
      Reachable q'

/-- The states reached from the initial state by successful configure, push and pop calls
(each returns 0) with non-negative lengths. -/
inductive ReachableOk : circular_queue → Prop
  | init : ReachableOk circular_queue_init
  | step (f : file) (mm : allocator) (waits : List wait_result) (q : circular_queue)
      (cmd arg : Nat) (user : Option data) (q' : circular_queue) (u : Option data) :
      ReachableOk q →
      (∀ w, wait_result.woken w ∈ waits → ReachableOk w) →
      (cmd = SET_SIZE_OF_QUEUE ∨ cmd = PUSH_DATA ∨ cmd = POP_DATA) →
      (∀ d, user = some d → 0 ≤ d.length) →
      device_ioctl f mm waits q cmd arg user = result.ret 0 q' u →
      ReachableOk q'

/-- The invariant of the reachable states: the queue is unusable (`size == 0`, nothing
stored) or valid. -/
def Inv (q : circular_queue) : Prop :=
  (q.size = 0 ∧ q.count = 0) ∨ Valid q

/-! ## Example inputs -/

/-- A file opened with `O_NONBLOCK`. -/
def nonblocking : file := { f_flags := O_NONBLOCK }

/-- A file opened without `O_NONBLOCK`. -/
def blocking : file := { f_flags := 0 }

/-- An allocator with memory to hand out; fresh blocks hold zero bytes. -/
def plenty : allocator := { available := true, fill := fun _ => 0 }

/-- An allocator that is out of memory. -/
def exhausted : allocator := { available := false, fill := fun _ => 0 }

/-- The bytes of an ASCII string. -/
def bytes (s : String) : List byte := s.toList.map fun c => c.toNat.toUInt8

/-- The state after `configure(4); push "AB"; pop 1`. -/
def after_AB_pop1 : circular_queue :=
  { buffer := some [65, 66, 0, 0], size := 4, head := 1, tail := 2, count := 1 }

/-- The state after `configure(4); push "AB"; pop 1; push "CDE"`: the queue is full and the
last byte sits at index 0. -/
def after_CDE : circular_queue :=
  { buffer := some [69, 66, 67, 68], size := 4, head := 1, tail := 1, count := 4 }

/-- An empty queue of capacity 10, as `configure(10)` leaves it. -/
def empty10 : circular_queue :=
  { buffer := some [0, 0, 0, 0, 0, 0, 0, 0, 0, 0], size := 10, head := 0, tail := 0,
    count := 0 }

/-- An empty queue of capacity 4, as `configure(4)` leaves it. -/
def empty4 : circular_queue :=
  { buffer := some [0, 0, 0, 0], size := 4, head := 0, tail := 0, count := 0 }

/-- A queue of capacity 4 holding the two bytes "AB". -/
def holding_AB : circular_queue :=
  { buffer := some [65, 66, 0, 0], size := 4, head := 0, tail := 2, count := 2 }

/-- A queue of capacity 4 holding the single byte "A". -/
def holding_A : circular_queue :=
  { buffer := some [65, 0, 0, 0], size := 4, head := 0, tail := 1, count := 1 }

/-- A queue of capacity 10 holding the five bytes "ABCDE". -/
def holding_ABCDE : circular_queue :=
  { buffer := some [65, 66, 67, 68, 69, 0, 0, 0, 0, 0], size := 10, head := 0, tail := 5,
    count := 5 }

/-! ## The reader helper -/

/-- Lines 22-31 of `main` in `src/reader.c`: a record with `length = 3` and a fresh
3-byte region (`malloc(3)`, holding whatever `heap` gives), the `POP_DATA` call, and what
`printf("%.*s", d->length, d->data)` prints after a call that did not fail: the bytes of
the region up to `d->length`, cut at the first NUL. `none` where nothing is printed. -/
def reader_main (waits : List wait_result) (queue : circular_queue) (heap : Nat → byte) :
    Option (List byte) :=
  let d : data := { length := 3, data := (List.range 3).map heap }
  match device_ioctl blocking plenty waits queue POP_DATA 0 (some d) with
  | result.ret ret _ (some d') =>
    if ret < 0 then none else some ((d'.data.take d'.length.toNat).takeWhile (· ≠ 0))
  | _ => none

/-- A queue of capacity 4 filled with "ABCD", as `configure(4); push "ABCD"` leaves it. -/
def full_ABCD : circular_queue :=
  { buffer := some [65, 66, 67, 68], size := 4, head := 0, tail := 0, count := 4 }

/-! ## Notifications -/

/-- Whether a call of `device_ioctl` reaches one of the two
`wake_up_interruptible(&queue.wq)` of the handler. They stand at lines 92 and 123, after
the critical sections of `PUSH_DATA` and `POP_DATA`; the case `SET_SIZE_OF_QUEUE`
(lines 50-62) holds none, and every early `return` leaves before them. -/
def device_ioctl_wakes (f : file) (waits : List wait_result) (queue : circular_queue)
    (cmd : Nat) (user : Option data) : Bool :=
  if cmd = SET_SIZE_OF_QUEUE then false
  else if cmd = PUSH_DATA then
    match user with
    | none => false
    | some user_data =>
      match push_wait f user queue waits with
      | Sum.inl _ => false
      | Sum.inr q =>
        match push_data q user_data with
        | result.ret _ _ _ => true
        | _ => false
  else if cmd = POP_DATA then
    match user with
    | none => false
    | some user_data =>
      match pop_wait f user queue waits with
      | Sum.inl _ => false
      | Sum.inr q =>
        match pop_data q user_data with
        | result.ret _ _ _ => true
        | _ => false
  else false

/-! ## The bytes a copy touches -/

/-- An `int` length converted to `size_t` (64 bits), as `memcpy` receives it. -/
def size_t (n : Int) : Nat := (n % 18446744073709551616).toNat

/-- The bytes `memcpy(dst + doff, src + soff, n)` moves, in order: the pair
`(doff + i, soff + i)` says that the byte at offset `soff + i` of the source goes to offset
`doff + i` of the destination. -/
def memcpy_accesses (doff soff n : Int) : List (Int × Int) :=
  (List.range (size_t n)).map fun (i : Nat) => (doff + (i : Int), soff + (i : Int))

/-- Lines 81-87 of `PUSH_DATA`: the pairs (index written in the buffer, offset read in the
data of the caller) of the copy, `length` being the clamped `user_data.length`. -/
def push_accesses (queue : circular_queue) (length : Int) : List (Int × Int) :=
  if wrapInt (queue.tail + length) > queue.size then
    let first_part := wrapInt (queue.size - queue.tail)
    memcpy_accesses queue.tail 0 first_part ++
      memcpy_accesses 0 first_part (wrapInt (length - first_part))
  else memcpy_accesses queue.tail 0 length

/-- Lines 112-118 of `POP_DATA`: the pairs (offset written in the region of the caller,
index read in the buffer) of the copy, `length` being the clamped `user_data.length`. -/
def pop_accesses (queue : circular_queue) (length : Int) : List (Int × Int) :=
  if wrapInt (queue.head + length) > queue.size then
    let first_part := wrapInt (queue.size - queue.head)
    memcpy_accesses 0 queue.head first_part ++
      memcpy_accesses first_part 0 (wrapInt (length - first_part))
  else memcpy_accesses 0 queue.head length


/-- An empty queue of capacity 8, as `configure(8)` leaves it. -/
def empty8 : circular_queue :=
  { buffer := some [0, 0, 0, 0, 0, 0, 0, 0], size := 8, head := 0, tail := 0, count := 0 }

/-- The states of the claim on signed lengths: `0 < size`, `0 <= count <= size`, and `head`
and `tail` lie in `[0, size)`; `tail` need not be `(head + count) mod size`. The buffer is
an allocated block of `size` bytes, or NULL as a failed configure leaves it (then `size` is
any positive `int`). -/
def Bounded (q : circular_queue) : Prop :=
  ((q.buffer = none ∧ q.size ≤ INT_MAX) ∨
      ((q.buffer.map fun b => (b.length : Int)) = some q.size ∧ q.size ≤ KMALLOC_MAX_SIZE)) ∧
    0 < q.size ∧ 0 ≤ q.count ∧ q.count ≤ q.size ∧ 0 ≤ q.head ∧ q.head < q.size ∧
    0 ≤ q.tail ∧ q.tail < q.size

instance (q : circular_queue) : Decidable (Bounded q) := by
  unfold Bounded
  infer_instance

/-- The state a failed `configure(8)` leaves of a queue that held "AB": no buffer, size 8,
and the old cursors and count. -/
def lost_AB : circular_queue :=
  { buffer := none, size := 8, head := 0, tail := 2, count := 2 }


/-! ## Arithmetic and memory lemmas -/

theorem wrapInt_eq (x : Int) (h1 : -2147483648 ≤ x) (h2 : x ≤ 2147483647) : wrapInt x = x := by
  unfold wrapInt; omega

theorem emod_cases (x m : Int) (h0 : 0 ≤ x) (h1 : x < 2 * m) :
    (x < m ∧ x % m = x) ∨ (m ≤ x ∧ x % m = x - m) := by
  rcases lt_or_le x m with h | h
  · exact Or.inl ⟨h, Int.emod_eq_of_lt h0 h⟩
  · refine Or.inr ⟨h, ?_⟩
    have h2 : x % m = (x - m) % m := by
      have h3 : (x - m + 1 * m) % m = (x - m) % m := Int.add_mul_emod_self
      rw [← h3]; congr 1; ring
    rw [h2, Int.emod_eq_of_lt (by omega) (by omega)]

theorem clamp_length_eq_min (a b : Int) : clamp_length a b = min a b := by
  unfold clamp_length
  split_ifs with h
  · exact (min_eq_right (le_of_lt h)).symm
  · exact (min_eq_left (not_lt.mp h)).symm

theorem c_mod_nonneg (a b : Int) (ha : 0 ≤ a) (hb : 0 < b) : c_mod a b = some (a % b) := by
  unfold c_mod INT_MIN
  rw [if_neg (by omega), Int.tmod_eq_emod ha (le_of_lt hb)]

theorem getD_splice (dst mid : List byte) (a : Nat) (ha : a + mid.length ≤ dst.length) (p : Nat) :
    (dst.take a ++ mid ++ dst.drop (a + mid.length)).getD p 0 =
      if a ≤ p ∧ p < a + mid.length then mid.getD (p - a) 0 else dst.getD p 0 := by
  simp only [List.getD_eq_getElem?_getD, List.append_assoc]
  by_cases h1 : p < a
  · have : ¬ (a ≤ p ∧ p < a + mid.length) := by omega
    rw [if_neg this, List.getElem?_append_left (by simp; omega)]
    simp [List.getElem?_take, h1]
  · rw [List.getElem?_append_right (by simp; omega)]
    have hl : (List.take a dst).length = a := by simp; omega
    rw [hl]
    by_cases h2 : p < a + mid.length
    · rw [if_pos ⟨by omega, h2⟩, List.getElem?_append_left (by omega)]
    · have : ¬ (a ≤ p ∧ p < a + mid.length) := by omega
      rw [if_neg this, List.getElem?_append_right (by omega), List.getElem?_drop]
      congr 2; omega

theorem memcpy_some {dst src r : List byte} {doff soff n : Int}
    (h : memcpy dst doff src soff n = some r) :
    0 ≤ doff ∧ 0 ≤ soff ∧ 0 ≤ n ∧ doff + n ≤ dst.length ∧ soff + n ≤ src.length ∧
      r.length = dst.length ∧
      ∀ p : Nat, r.getD p 0 =
        if doff ≤ p ∧ (p : Int) < doff + n then src.getD (soff + (p - doff)).toNat 0
        else dst.getD p 0 := by
  unfold memcpy at h
  split_ifs at h with hc
  obtain ⟨h1, h2, h3, h4, h5⟩ := hc
  refine ⟨h1, h2, h3, h4, h5, ?_⟩
  injection h with h
  obtain ⟨a, rfl⟩ := Int.eq_ofNat_of_zero_le h1
  obtain ⟨s, rfl⟩ := Int.eq_ofNat_of_zero_le h2
  obtain ⟨k, rfl⟩ := Int.eq_ofNat_of_zero_le h3
  have hmid : ((src.drop s).take k).length = k := by
    simp only [List.length_take, List.length_drop]; omega
  have hk : ((a : Int) + (k : Int)).toNat = a + ((src.drop s).take k).length := by omega
  simp only [Int.toNat_ofNat] at h
  rw [hk] at h
  subst h
  constructor
  · simp only [List.length_append, List.length_take, List.length_drop]; omega
  · intro p
    rw [getD_splice _ _ _ (by omega), hmid]
    by_cases hp : a ≤ p ∧ p < a + k
    · have hp2 : (a : Int) ≤ p ∧ (p : Int) < a + k := by omega
      rw [if_pos hp, if_pos hp2]
      simp only [List.getD_eq_getElem?_getD, List.getElem?_take, List.getElem?_drop]
      rw [if_pos (by omega)]
      congr 2; omega
    · have hp2 : ¬ ((a : Int) ≤ p ∧ (p : Int) < a + k) := by omega
      rw [if_neg hp, if_neg hp2]

theorem memcpy_isSome {dst src : List byte} {doff soff n : Int}
    (h : 0 ≤ doff ∧ 0 ≤ soff ∧ 0 ≤ n ∧ doff + n ≤ dst.length ∧ soff + n ≤ src.length) :
    ∃ r, memcpy dst doff src soff n = some r := by
  unfold memcpy
  rw [if_pos h]
  exact ⟨_, rfl⟩

/-- Twice the largest block size fits a C `int`: the sums the handler forms from indices
and lengths of an allocated buffer do not overflow. -/
theorem KMALLOC_MAX_SIZE_le : KMALLOC_MAX_SIZE ≤ 1073741823 := by decide

/-- The facts `Valid` packs, with the buffer named and the bounds of `tail` added. -/
theorem Valid.unpack {q : circular_queue} (hv : Valid q) :
    ∃ b, q.buffer = some b ∧ (b.length : Int) = q.size ∧ q.size ≤ 1073741823 ∧ 0 < q.size ∧
      0 ≤ q.head ∧ q.head < q.size ∧ 0 ≤ q.count ∧ q.count ≤ q.size ∧
      0 ≤ q.tail ∧ q.tail < q.size ∧
      ((q.head + q.count < q.size ∧ q.tail = q.head + q.count) ∨
        (q.size ≤ q.head + q.count ∧ q.tail = q.head + q.count - q.size)) := by
  obtain ⟨hb, hk, hs, hh0, hh1, hc0, hc1, ht⟩ := hv
  obtain ⟨b, hb1, hb2⟩ := Option.map_eq_some'.mp hb
  have hm := emod_cases (q.head + q.count) q.size (by omega) (by omega)
  rw [← ht] at hm
  have hk2 := le_trans hk KMALLOC_MAX_SIZE_le
  refine ⟨b, hb1, hb2, hk2, hs, hh0, hh1, hc0, hc1, by omega, by omega, by omega⟩

/-! ## The two copies -/

theorem memcpy_to_block (block : List byte) (doff : Int) (src : List byte) (soff n : Int) :
    memcpy_to (some block) doff src soff n = (memcpy block doff src soff n).map some :=
  rfl

theorem memcpy_from_block (dst : List byte) (doff : Int) (block : List byte)
    (soff n : Int) : memcpy_from dst doff (some block) soff n = memcpy dst doff block soff n :=
  rfl

/-- Through an allocated buffer, the copy of a push is two plain `memcpy`s at most. -/
theorem push_copy_of_buffer {q : circular_queue} {d : data} {k : Int} {b : List byte}
    (hb : q.buffer = some b) :
    push_copy q d k =
      Option.map some
        (if wrapInt (q.tail + k) > q.size then
          (memcpy b q.tail d.data 0 (wrapInt (q.size - q.tail))).bind fun r =>
            memcpy r 0 d.data (wrapInt (q.size - q.tail))
              (wrapInt (k - wrapInt (q.size - q.tail)))
        else memcpy b q.tail d.data 0 k) := by
  unfold push_copy
  rw [hb]
  simp only [memcpy_to_block]
  split_ifs with hw
  · cases memcpy b q.tail d.data 0 (wrapInt (q.size - q.tail)) with
    | none => rfl
    | some r => rfl
  · rfl

/-- Through an allocated buffer, a push that does not fault leaves an allocated buffer. -/
theorem push_copy_block {q : circular_queue} {d : data} {k : Int} {b : List byte}
    {x : Option (List byte)} (hb : q.buffer = some b) (h : push_copy q d k = some x) :
    ∃ r, x = some r := by
  rw [push_copy_of_buffer hb] at h
  obtain ⟨r, -, hr⟩ := Option.map_eq_some'.mp h
  exact ⟨r, hr.symm⟩

/-- Through an allocated buffer, the copy of a pop is two plain `memcpy`s at most. -/
theorem pop_copy_of_buffer {q : circular_queue} {d : data} {k : Int} {b : List byte}
    (hb : q.buffer = some b) :
    pop_copy q d k =
      if wrapInt (q.head + k) > q.size then
        (memcpy d.data 0 b q.head (wrapInt (q.size - q.head))).bind fun out =>
          memcpy out (wrapInt (q.size - q.head)) b 0
            (wrapInt (k - wrapInt (q.size - q.head)))
      else memcpy d.data 0 b q.head k := by
  unfold pop_copy
  rw [hb]
  simp only [memcpy_from_block]

theorem push_copy_some {q : circular_queue} {d : data} {k : Int} {b r : List byte}
    (hb : q.buffer = some b) (hlen : (b.length : Int) = q.size) (hs : q.size ≤ 1073741823)
    (ht0 : 0 ≤ q.tail) (ht1 : q.tail < q.size) (hk0 : 0 ≤ k) (hk1 : k ≤ q.size)
    (h : push_copy q d k = some (some r)) :
    k ≤ d.data.length ∧ r.length = b.length ∧
      ∀ p : Nat, (p : Int) < q.size → r.getD p 0 =
        if q.tail ≤ p ∧ (p : Int) < q.tail + k then
          d.data.getD ((p : Int) - q.tail).toNat 0
        else if (p : Int) + q.size < q.tail + k then
          d.data.getD ((p : Int) + q.size - q.tail).toNat 0
        else b.getD p 0 := by
  rw [push_copy_of_buffer hb] at h
  obtain ⟨r0, hm, hr0⟩ := Option.map_eq_some'.mp h
  obtain rfl := Option.some.inj hr0
  replace h := hm
  clear hm hr0
  rw [wrapInt_eq (q.tail + k) (by omega) (by omega)] at h
  split_ifs at h with hw
  · rw [wrapInt_eq (q.size - q.tail) (by omega) (by omega),
      wrapInt_eq (k - (q.size - q.tail)) (by omega) (by omega)] at h
    cases h1 : memcpy b q.tail d.data 0 (q.size - q.tail) with
    | none => rw [h1] at h; simp at h
    | some r1 =>
      rw [h1] at h
      simp only [Option.some_bind] at h
      obtain ⟨-, -, -, -, ha5, ha6, ha7⟩ := memcpy_some h1
      obtain ⟨-, -, -, -, hb5, hb6, hb7⟩ := memcpy_some h
      refine ⟨by omega, by omega, ?_⟩
      intro p c2
      rw [hb7 p, ha7 p]
      by_cases c1 : q.tail ≤ p
      · rw [if_neg (by omega), if_pos (by omega), if_pos (by omega)]
        congr 1; omega
      · by_cases c3 : (p : Int) + q.size < q.tail + k
        · rw [if_pos (by omega), if_neg (by omega), if_pos c3]
          congr 1; omega
        · rw [if_neg (by omega), if_neg (by omega), if_neg (by omega), if_neg c3]
  · obtain ⟨-, -, -, -, ha5, ha6, ha7⟩ := memcpy_some h
    refine ⟨by omega, ha6, ?_⟩
    intro p c2
    rw [ha7 p]
    by_cases c1 : q.tail ≤ p ∧ (p : Int) < q.tail + k
    · rw [if_pos c1, if_pos c1]
      congr 1; omega
    · rw [if_neg c1, if_neg c1, if_neg (by omega)]

theorem push_copy_isSome {q : circular_queue} {d : data} {k : Int} {b : List byte}
    (hb : q.buffer = some b) (hlen : (b.length : Int) = q.size) (hs : q.size ≤ 1073741823)
    (ht0 : 0 ≤ q.tail) (ht1 : q.tail < q.size) (hk0 : 0 ≤ k) (hk1 : k ≤ q.size)
    (hd : k ≤ d.data.length) :
    ∃ r, push_copy q d k = some (some r) := by
  rw [push_copy_of_buffer hb]
  suffices hsome : ∃ r,
      (if wrapInt (q.tail + k) > q.size then
        (memcpy b q.tail d.data 0 (wrapInt (q.size - q.tail))).bind fun r =>
          memcpy r 0 d.data (wrapInt (q.size - q.tail))
            (wrapInt (k - wrapInt (q.size - q.tail)))
      else memcpy b q.tail d.data 0 k) = some r by
    obtain ⟨r, hr⟩ := hsome
    exact ⟨r, by rw [hr]; rfl⟩
  rw [wrapInt_eq (q.tail + k) (by omega) (by omega)]
  split_ifs with hw
  · rw [wrapInt_eq (q.size - q.tail) (by omega) (by omega),
      wrapInt_eq (k - (q.size - q.tail)) (by omega) (by omega)]
    obtain ⟨r1, h1⟩ := @memcpy_isSome b d.data q.tail 0 (q.size - q.tail)
      ⟨ht0, le_refl 0, by omega, by omega, by omega⟩
    obtain ⟨-, -, -, -, -, ha6, -⟩ := memcpy_some h1
    rw [h1]
    simp only [Option.some_bind]
    exact memcpy_isSome ⟨le_refl 0, by omega, by omega, by omega, by omega⟩
  · exact memcpy_isSome ⟨ht0, le_refl 0, hk0, by omega, by omega⟩

theorem pop_copy_some {q : circular_queue} {d : data} {k : Int} {b r : List byte}
    (hb : q.buffer = some b) (hlen : (b.length : Int) = q.size) (hs : q.size ≤ 1073741823)
    (hh0 : 0 ≤ q.head) (hh1 : q.head < q.size) (hk0 : 0 ≤ k) (hk1 : k ≤ q.size)
    (h : pop_copy q d k = some r) :
    k ≤ d.data.length ∧ r.length = d.data.length ∧
      ∀ j : Nat, r.getD j 0 =
        if (j : Int) < k then
          (if q.head + j < q.size then b.getD (q.head + j).toNat 0
           else b.getD (q.head + j - q.size).toNat 0)
        else d.data.getD j 0 := by
  rw [pop_copy_of_buffer hb] at h
  rw [wrapInt_eq (q.head + k) (by omega) (by omega)] at h
  split_ifs at h with hw
  · rw [wrapInt_eq (q.size - q.head) (by omega) (by omega),
      wrapInt_eq (k - (q.size - q.head)) (by omega) (by omega)] at h
    cases h1 : memcpy d.data 0 b q.head (q.size - q.head) with
    | none => rw [h1] at h; simp at h
    | some r1 =>
      rw [h1] at h
      simp only [Option.some_bind] at h
      obtain ⟨-, -, -, ha4, -, ha6, ha7⟩ := memcpy_some h1
      obtain ⟨-, -, -, hb4, -, hb6, hb7⟩ := memcpy_some h
      refine ⟨by omega, by omega, ?_⟩
      intro j
      rw [hb7 j, ha7 j]
      by_cases c1 : (j : Int) < k
      · rw [if_pos c1]
        by_cases c2 : q.head + j < q.size
        · rw [if_neg (by omega), if_pos (by omega), if_pos c2]
          congr 1
        · rw [if_pos (by omega), if_neg c2]
          congr 1; omega
      · rw [if_neg (by omega), if_neg (by omega), if_neg c1]
  · obtain ⟨-, -, -, ha4, -, ha6, ha7⟩ := memcpy_some h
    refine ⟨by omega, ha6, ?_⟩
    intro j
    rw [ha7 j]
    by_cases c1 : (j : Int) < k
    · rw [if_pos (by omega), if_pos c1, if_pos (by omega)]
      congr 1
    · rw [if_neg (by omega), if_neg c1]

theorem pop_copy_isSome {q : circular_queue} {d : data} {k : Int} {b : List byte}
    (hb : q.buffer = some b) (hlen : (b.length : Int) = q.size) (hs : q.size ≤ 1073741823)
    (hh0 : 0 ≤ q.head) (hh1 : q.head < q.size) (hk0 : 0 ≤ k) (hk1 : k ≤ q.size)
    (hd : k ≤ d.data.length) :
    ∃ r, pop_copy q d k = some r := by
  rw [pop_copy_of_buffer hb]
  rw [wrapInt_eq (q.head + k) (by omega) (by omega)]
  split_ifs with hw
  · rw [wrapInt_eq (q.size - q.head) (by omega) (by omega),
      wrapInt_eq (k - (q.size - q.head)) (by omega) (by omega)]
    obtain ⟨r1, h1⟩ := @memcpy_isSome d.data b 0 q.head (q.size - q.head)
      ⟨le_refl 0, hh0, by omega, by omega, by omega⟩
    obtain ⟨-, -, -, -, -, ha6, -⟩ := memcpy_some h1
    rw [h1]
    simp only [Option.some_bind]
    exact memcpy_isSome ⟨by omega, le_refl 0, by omega, by omega, by omega⟩
  · exact memcpy_isSome ⟨le_refl 0, hh0, hk0, by omega, by omega⟩

/-! ## The critical sections on a valid state -/

/-- What a returning `push_data` has done on a valid state. -/
theorem push_data_ret {q q' : circular_queue} {d : data} {c : Int} {u : Option data}
    (hv : Valid q) (hn : 0 ≤ d.length) (h : push_data q d = result.ret c q' u) :
    ∃ b r, q.buffer = some b ∧ c = 0 ∧ u = some d ∧
      q' = { buffer := some r, size := q.size, head := q.head,
             tail := (q.tail + min d.length (q.size - q.count)) % q.size,
             count := q.count + min d.length (q.size - q.count) } ∧
      min d.length (q.size - q.count) ≤ d.data.length ∧ r.length = b.length ∧
      ∀ p : Nat, (p : Int) < q.size → r.getD p 0 =
        if q.tail ≤ p ∧ (p : Int) < q.tail + min d.length (q.size - q.count) then
          d.data.getD ((p : Int) - q.tail).toNat 0
        else if (p : Int) + q.size < q.tail + min d.length (q.size - q.count) then
          d.data.getD ((p : Int) + q.size - q.tail).toNat 0
        else b.getD p 0 := by
  obtain ⟨b, hb, hlen, hs, hs0, hh0, hh1, hc0, hc1, ht0, ht1, htl⟩ := hv.unpack
  unfold push_data at h
  simp only at h
  rw [wrapInt_eq (q.size - q.count) (by omega) (by omega), clamp_length_eq_min] at h
  have hk0 : 0 ≤ min d.length (q.size - q.count) := le_min hn (by omega)
  have hk1 : min d.length (q.size - q.count) ≤ q.size - q.count := min_le_right _ _
  generalize min d.length (q.size - q.count) = k at h hk0 hk1 ⊢
  rw [wrapInt_eq (q.tail + k) (by omega) (by omega), c_mod_nonneg _ _ (by omega) hs0,
    wrapInt_eq (q.count + k) (by omega) (by omega)] at h
  cases hc : push_copy q d k with
  | none => rw [hc] at h; simp at h
  | some x =>
    obtain ⟨r, rfl⟩ := push_copy_block hb hc
    rw [hc] at h
    simp only [result.ret.injEq] at h
    obtain ⟨h1, h2, h3⟩ := h
    obtain ⟨g1, g2, g3⟩ := push_copy_some hb hlen hs ht0 ht1 hk0 (by omega) hc
    exact ⟨b, r, hb, h1.symm, h3.symm, h2.symm, g1, g2, g3⟩

theorem push_data_total {q : circular_queue} {d : data}
    (hv : Valid q) (hn : 0 ≤ d.length)
    (hd : min d.length (q.size - q.count) ≤ d.data.length) :
    ∃ q', push_data q d = result.ret 0 q' (some d) := by
  obtain ⟨b, hb, hlen, hs, hs0, hh0, hh1, hc0, hc1, ht0, ht1, htl⟩ := hv.unpack
  unfold push_data
  simp only
  rw [wrapInt_eq (q.size - q.count) (by omega) (by omega), clamp_length_eq_min]
  have hk0 : 0 ≤ min d.length (q.size - q.count) := le_min hn (by omega)
  have hk1 : min d.length (q.size - q.count) ≤ q.size - q.count := min_le_right _ _
  generalize min d.length (q.size - q.count) = k at hd hk0 hk1 ⊢
  rw [wrapInt_eq (q.tail + k) (by omega) (by omega), c_mod_nonneg _ _ (by omega) hs0]
  obtain ⟨r, hr⟩ := push_copy_isSome (d := d) hb hlen hs ht0 ht1 hk0 (by omega) hd
  rw [hr]
  exact ⟨_, rfl⟩

/-- What a returning `pop_data` has done on a valid state. -/
theorem pop_data_ret {q q' : circular_queue} {d : data} {c : Int} {u : Option data}
    (hv : Valid q) (hn : 0 ≤ d.length) (h : pop_data q d = result.ret c q' u) :
    ∃ b r, q.buffer = some b ∧ c = 0 ∧ u = some { length := d.length, data := r } ∧
      q' = { buffer := q.buffer, size := q.size,
             head := (q.head + min d.length q.count) % q.size, tail := q.tail,
             count := q.count - min d.length q.count } ∧
      min d.length q.count ≤ d.data.length ∧ r.length = d.data.length ∧
      ∀ j : Nat, r.getD j 0 =
        if (j : Int) < min d.length q.count then
          (if q.head + j < q.size then b.getD (q.head + j).toNat 0
           else b.getD (q.head + j - q.size).toNat 0)
        else d.data.getD j 0 := by
  obtain ⟨b, hb, hlen, hs, hs0, hh0, hh1, hc0, hc1, ht0, ht1, htl⟩ := hv.unpack
  unfold pop_data at h
  simp only at h
  rw [clamp_length_eq_min] at h
  have hk0 : 0 ≤ min d.length q.count := le_min hn hc0
  have hk1 : min d.length q.count ≤ q.count := min_le_right _ _
  generalize min d.length q.count = k at h hk0 hk1 ⊢
  rw [wrapInt_eq (q.head + k) (by omega) (by omega), c_mod_nonneg _ _ (by omega) hs0,
    wrapInt_eq (q.count - k) (by omega) (by omega)] at h
  cases hc : pop_copy q d k with
  | none => rw [hc] at h; simp at h
  | some r =>
    rw [hc] at h
    simp only [result.ret.injEq] at h
    obtain ⟨h1, h2, h3⟩ := h
    obtain ⟨g1, g2, g3⟩ := pop_copy_some hb hlen hs hh0 hh1 hk0 (by omega) hc
    exact ⟨b, r, hb, h1.symm, h3.symm, h2.symm, g1, g2, g3⟩

theorem pop_data_total {q : circular_queue} {d : data}
    (hv : Valid q) (hn : 0 ≤ d.length) (hd : min d.length q.count ≤ d.data.length) :
    ∃ q' r, pop_data q d = result.ret 0 q' (some { length := d.length, data := r }) := by
  obtain ⟨b, hb, hlen, hs, hs0, hh0, hh1, hc0, hc1, ht0, ht1, htl⟩ := hv.unpack
  unfold pop_data
  simp only
  rw [clamp_length_eq_min]
  have hk0 : 0 ≤ min d.length q.count := le_min hn hc0
  have hk1 : min d.length q.count ≤ q.count := min_le_right _ _
  generalize min d.length q.count = k at hd hk0 hk1 ⊢
  rw [wrapInt_eq (q.head + k) (by omega) (by omega), c_mod_nonneg _ _ (by omega) hs0]
  obtain ⟨r, hr⟩ := pop_copy_isSome (d := d) hb hlen hs hh0 hh1 hk0 (by omega) hd
  rw [hr]
  exact ⟨_, _, rfl⟩

/-! ## Lists read through `getD` -/

theorem list_ext_getD {l1 l2 : List byte} (hl : l1.length = l2.length)
    (h : ∀ i, i < l1.length → l1.getD i 0 = l2.getD i 0) : l1 = l2 := by
  refine List.ext_getElem hl (fun i h1 h2 => ?_)
  have h3 := h i h1
  rwa [List.getD_eq_getElem _ _ h1, List.getD_eq_getElem _ _ h2] at h3

theorem getD_map_range (f : Nat → byte) (n i : Nat) (h : i < n) :
    ((List.range n).map f).getD i 0 = f i := by
  rw [List.getD_eq_getElem _ _ (by simpa using h)]
  simp

theorem getD_take (l : List byte) (n i : Nat) (h : i < n) :
    (l.take n).getD i 0 = l.getD i 0 := by
  simp only [List.getD_eq_getElem?_getD, List.getElem?_take, if_pos h]

theorem getD_drop (l : List byte) (n i : Nat) :
    (l.drop n).getD i 0 = l.getD (n + i) 0 := by
  simp only [List.getD_eq_getElem?_getD, List.getElem?_drop]

theorem contents_length (q : circular_queue) : (contents q).length = q.count.toNat := by
  simp [contents]

theorem contents_getD (q : circular_queue) (i : Nat) (h : i < q.count.toNat) :
    (contents q).getD i 0 =
      (q.buffer.getD []).getD ((q.head + (i : Int)) % q.size).toNat 0 := by
  unfold contents
  rw [getD_map_range _ _ _ h]

/-! ## Validity and contents after a transfer -/

theorem push_data_valid {q q' : circular_queue} {d : data} {c : Int} {u : Option data}
    (hv : Valid q) (hn : 0 ≤ d.length) (h : push_data q d = result.ret c q' u) :
    Valid q' := by
  obtain ⟨b, hb, hlen, hs, hs0, hh0, hh1, hc0, hc1, ht0, ht1, htl⟩ := hv.unpack
  obtain ⟨b2, r, hb2, -, -, hq, hd, hr, -⟩ := push_data_ret hv hn h
  rw [hb] at hb2
  injection hb2 with hb2
  subst hb2
  have hk0 : 0 ≤ min d.length (q.size - q.count) := le_min hn (by omega)
  have hk1 : min d.length (q.size - q.count) ≤ q.size - q.count := min_le_right _ _
  generalize min d.length (q.size - q.count) = k at hq hk0 hk1
  have e1 := emod_cases (q.tail + k) q.size (by omega) (by omega)
  have e2 := emod_cases (q.head + (q.count + k)) q.size (by omega) (by omega)
  subst hq
  unfold Valid
  simp only [Option.map_some', Option.some.injEq]
  refine ⟨by omega, hv.2.1, hs0, hh0, hh1, by omega, by omega, by omega⟩

theorem pop_data_valid {q q' : circular_queue} {d : data} {c : Int} {u : Option data}
    (hv : Valid q) (hn : 0 ≤ d.length) (h : pop_data q d = result.ret c q' u) :
    Valid q' := by
  obtain ⟨b, hb, hlen, hs, hs0, hh0, hh1, hc0, hc1, ht0, ht1, htl⟩ := hv.unpack
  obtain ⟨b2, r, hb2, -, -, hq, hd, hr, -⟩ := pop_data_ret hv hn h
  have hk0 : 0 ≤ min d.length q.count := le_min hn hc0
  have hk1 : min d.length q.count ≤ q.count := min_le_right _ _
  generalize min d.length q.count = k at hq hk0 hk1
  have e1 := emod_cases (q.head + k) q.size (by omega) (by omega)
  have e2 := emod_cases ((q.head + k) % q.size + (q.count - k)) q.size (by omega) (by omega)
  subst hq
  unfold Valid
  simp only [hb, Option.map_some', Option.some.injEq]
  refine ⟨hlen, hv.2.1, hs0, by omega, by omega, by omega, by omega, by omega⟩

theorem push_data_contents {q q' : circular_queue} {d : data} {c : Int} {u : Option data}
    (hv : Valid q) (hn : 0 ≤ d.length) (h : push_data q d = result.ret c q' u) :
    contents q' = contents q ++ d.data.take (min d.length (q.size - q.count)).toNat := by
  obtain ⟨b, hb, hlen, hs, hs0, hh0, hh1, hc0, hc1, ht0, ht1, htl⟩ := hv.unpack
  obtain ⟨b2, r, hb2, -, -, hq, hd, hr, hp⟩ := push_data_ret hv hn h
  rw [hb] at hb2
  injection hb2 with hb2
  subst hb2
  have hk0 : 0 ≤ min d.length (q.size - q.count) := le_min hn (by omega)
  have hk1 : min d.length (q.size - q.count) ≤ q.size - q.count := min_le_right _ _
  generalize min d.length (q.size - q.count) = k at hq hk0 hk1 hd hp ⊢
  have hl : (contents q').length = (contents q ++ d.data.take k.toNat).length := by
    rw [List.length_append, contents_length, contents_length, List.length_take, hq]
    simp only
    omega
  refine list_ext_getD hl (fun i hi => ?_)
  rw [contents_length, hq] at hi
  simp only at hi
  rw [contents_getD q' i (by rw [hq]; exact hi), hq]
  simp only [Option.getD_some]
  have e1 := emod_cases (q.head + (i : Int)) q.size (by omega) (by omega)
  obtain ⟨p, hpp⟩ := Int.eq_ofNat_of_zero_le (a := (q.head + (i : Int)) % q.size) (by omega)
  rw [hpp, Int.toNat_ofNat, hp p (by omega)]
  by_cases hic : i < q.count.toNat
  · rw [List.getD_append _ _ _ _ (by rw [contents_length]; exact hic), contents_getD q i hic,
      hb, hpp, if_neg (by omega), if_neg (by omega)]
    simp only [Option.getD_some, Int.toNat_ofNat]
  · rw [List.getD_append_right _ _ _ _ (by rw [contents_length]; omega), contents_length,
      getD_take _ _ _ (by omega)]
    by_cases hw : q.tail ≤ p
    · rw [if_pos (by omega)]
      congr 1; omega
    · rw [if_neg (by omega), if_pos (by omega)]
      congr 1; omega

theorem pop_data_contents {q q' : circular_queue} {d : data} {c : Int} {u : Option data}
    (hv : Valid q) (hn : 0 ≤ d.length) (h : pop_data q d = result.ret c q' u) :
    ∃ r, u = some { length := d.length, data := r } ∧ r.length = d.data.length ∧
      r.take (min d.length q.count).toNat = (contents q).take (min d.length q.count).toNat ∧
      r.drop (min d.length q.count).toNat = d.data.drop (min d.length q.count).toNat ∧
      contents q' = (contents q).drop (min d.length q.count).toNat := by
  obtain ⟨b, hb, hlen, hs, hs0, hh0, hh1, hc0, hc1, ht0, ht1, htl⟩ := hv.unpack
  obtain ⟨b2, r, hb2, -, hu, hq, hd, hr, hp⟩ := pop_data_ret hv hn h
  rw [hb] at hb2
  injection hb2 with hb2
  subst hb2
  have hk0 : 0 ≤ min d.length q.count := le_min hn hc0
  have hk1 : min d.length q.count ≤ q.count := min_le_right _ _
  generalize min d.length q.count = k at hq hk0 hk1 hd hp ⊢
  refine ⟨r, hu, hr, ?_, ?_, ?_⟩
  · have hl : (r.take k.toNat).length = ((contents q).take k.toNat).length := by
      rw [List.length_take, List.length_take, contents_length]
      omega
    refine list_ext_getD hl (fun i hi => ?_)
    rw [List.length_take] at hi
    rw [getD_take _ _ _ (by omega), getD_take _ _ _ (by omega), hp i, if_pos (by omega),
      contents_getD q i (by omega), hb]
    simp only [Option.getD_some]
    have e1 := emod_cases (q.head + (i : Int)) q.size (by omega) (by omega)
    by_cases hw : q.head + (i : Int) < q.size
    · rw [if_pos hw]
      congr 2; omega
    · rw [if_neg hw]
      congr 2; omega
  · have hl : (r.drop k.toNat).length = (d.data.drop k.toNat).length := by
      rw [List.length_drop, List.length_drop, hr]
    refine list_ext_getD hl (fun i _ => ?_)
    rw [getD_drop, getD_drop, hp (k.toNat + i), if_neg (by omega)]
  · have hl : (contents q').length = ((contents q).drop k.toNat).length := by
      rw [List.length_drop, contents_length, contents_length, hq]
      simp only
      omega
    refine list_ext_getD hl (fun i hi => ?_)
    rw [contents_length, hq] at hi
    simp only at hi
    rw [contents_getD q' i (by rw [hq]; exact hi), hq, getD_drop,
      contents_getD q (k.toNat + i) (by omega)]
    simp only
    have e1 := emod_cases (q.head + k) q.size (by omega) (by omega)
    have e2 := emod_cases ((q.head + k) % q.size + (i : Int)) q.size (by omega) (by omega)
    have e3 := emod_cases (q.head + ((k.toNat + i : Nat) : Int)) q.size (by omega) (by omega)
    congr 2
    omega

/-! ## The wait loops and the dispatcher -/

theorem push_wait_of_ne (f : file) (u : Option data) (q : circular_queue)
    (waits : List wait_result) (h : q.count ≠ q.size) : push_wait f u q waits = Sum.inr q := by
  cases waits <;> simp [push_wait, h]

theorem pop_wait_of_ne (f : file) (u : Option data) (q : circular_queue)
    (waits : List wait_result) (h : q.count ≠ 0) : pop_wait f u q waits = Sum.inr q := by
  cases waits <;> simp [pop_wait, h]

theorem push_wait_nonblock (f : file) (u : Option data) (q : circular_queue)
    (waits : List wait_result) (hf : f.f_flags &&& O_NONBLOCK ≠ 0) (h : q.count = q.size) :
    push_wait f u q waits = Sum.inl (result.ret (-EAGAIN) q u) := by
  cases waits <;> simp [push_wait, h, hf]

theorem pop_wait_nonblock (f : file) (u : Option data) (q : circular_queue)
    (waits : List wait_result) (hf : f.f_flags &&& O_NONBLOCK ≠ 0) (h : q.count = 0) :
    pop_wait f u q waits = Sum.inl (result.ret (-EAGAIN) q u) := by
  cases waits <;> simp [pop_wait, h, hf]

/-- The state in which the push loop is left is the first state, or one found at a
wake-up, and it is not full. -/
theorem push_wait_inr (f : file) (u : Option data) (waits : List wait_result) :
    ∀ (q qb : circular_queue), push_wait f u q waits = Sum.inr qb →
      qb.count ≠ qb.size ∧ (qb = q ∨ wait_result.woken qb ∈ waits) := by
  induction waits with
  | nil =>
    intro q qb h
    unfold push_wait at h
    split_ifs at h with h1
    injection h with h
    subst h
    exact ⟨h1, Or.inl rfl⟩
  | cons ev rest ih =>
    intro q qb h
    unfold push_wait at h
    split_ifs at h with h1 h2
    · cases ev with
      | interrupted => simp at h
      | woken w =>
        simp only at h
        obtain ⟨g1, g2⟩ := ih w qb h
        refine ⟨g1, Or.inr ?_⟩
        rcases g2 with g2 | g2
        · subst g2; exact List.mem_cons_self _ _
        · exact List.mem_cons_of_mem _ g2
    · injection h with h
      subst h
      exact ⟨h1, Or.inl rfl⟩

theorem pop_wait_inr (f : file) (u : Option data) (waits : List wait_result) :
    ∀ (q qb : circular_queue), pop_wait f u q waits = Sum.inr qb →
      qb.count ≠ 0 ∧ (qb = q ∨ wait_result.woken qb ∈ waits) := by
  induction waits with
  | nil =>
    intro q qb h
    unfold pop_wait at h
    split_ifs at h with h1
    injection h with h
    subst h
    exact ⟨h1, Or.inl rfl⟩
  | cons ev rest ih =>
    intro q qb h
    unfold pop_wait at h
    split_ifs at h with h1 h2
    · cases ev with
      | interrupted => simp at h
      | woken w =>
        simp only at h
        obtain ⟨g1, g2⟩ := ih w qb h
        refine ⟨g1, Or.inr ?_⟩
        rcases g2 with g2 | g2
        · subst g2; exact List.mem_cons_self _ _
        · exact List.mem_cons_of_mem _ g2
    · injection h with h
      subst h
      exact ⟨h1, Or.inl rfl⟩

/-- A push loop that ends the call returns `-EAGAIN` from the first state (non-blocking
mode), or `-ERESTARTSYS` from the first state or one found at a wake-up. -/
theorem push_wait_inl (f : file) (u : Option data) (waits : List wait_result) :
    ∀ (q q' : circular_queue) (c : Int) (u' : Option data),
      push_wait f u q waits = Sum.inl (result.ret c q' u') →
      u' = u ∧ ((c = -EAGAIN ∧ q' = q ∧ q.count = q.size ∧ f.f_flags &&& O_NONBLOCK ≠ 0) ∨
        (c = -ERESTARTSYS ∧ ¬ f.f_flags &&& O_NONBLOCK ≠ 0 ∧
          (q' = q ∨ wait_result.woken q' ∈ waits))) := by
  induction waits with
  | nil =>
    intro q q' c u' h
    unfold push_wait at h
    split_ifs at h with h1 h2
    · simp only [Sum.inl.injEq, result.ret.injEq] at h
      obtain ⟨g1, g2, g3⟩ := h
      exact ⟨g3.symm, Or.inl ⟨g1.symm, g2.symm, h1, h2⟩⟩
    · simp at h
  | cons ev rest ih =>
    intro q q' c u' h
    unfold push_wait at h
    split_ifs at h with h1 h2
    · simp only [Sum.inl.injEq, result.ret.injEq] at h
      obtain ⟨g1, g2, g3⟩ := h
      exact ⟨g3.symm, Or.inl ⟨g1.symm, g2.symm, h1, h2⟩⟩
    · cases ev with
      | interrupted =>
        simp only [Sum.inl.injEq, result.ret.injEq] at h
        obtain ⟨g1, g2, g3⟩ := h
        exact ⟨g3.symm, Or.inr ⟨g1.symm, h2, Or.inl g2.symm⟩⟩
      | woken w =>
        simp only at h
        obtain ⟨g1, g2⟩ := ih w q' c u' h
        refine ⟨g1, ?_⟩
        rcases g2 with ⟨-, -, -, g5⟩ | ⟨g3, g4, g5⟩
        · exact absurd g5 h2
        · refine Or.inr ⟨g3, g4, Or.inr ?_⟩
          rcases g5 with g5 | g5
          · subst g5; exact List.mem_cons_self _ _
          · exact List.mem_cons_of_mem _ g5

theorem pop_wait_inl (f : file) (u : Option data) (waits : List wait_result) :
    ∀ (q q' : circular_queue) (c : Int) (u' : Option data),
      pop_wait f u q waits = Sum.inl (result.ret c q' u') →
      u' = u ∧ ((c = -EAGAIN ∧ q' = q ∧ q.count = 0 ∧ f.f_flags &&& O_NONBLOCK ≠ 0) ∨
        (c = -ERESTARTSYS ∧ ¬ f.f_flags &&& O_NONBLOCK ≠ 0 ∧
          (q' = q ∨ wait_result.woken q' ∈ waits))) := by
  induction waits with
  | nil =>
    intro q q' c u' h
    unfold pop_wait at h
    split_ifs at h with h1 h2
    · simp only [Sum.inl.injEq, result.ret.injEq] at h
      obtain ⟨g1, g2, g3⟩ := h
      exact ⟨g3.symm, Or.inl ⟨g1.symm, g2.symm, h1, h2⟩⟩
    · simp at h
  | cons ev rest ih =>
    intro q q' c u' h
    unfold pop_wait at h
    split_ifs at h with h1 h2
    · simp only [Sum.inl.injEq, result.ret.injEq] at h
      obtain ⟨g1, g2, g3⟩ := h
      exact ⟨g3.symm, Or.inl ⟨g1.symm, g2.symm, h1, h2⟩⟩
    · cases ev with
      | interrupted =>
        simp only [Sum.inl.injEq, result.ret.injEq] at h
        obtain ⟨g1, g2, g3⟩ := h
        exact ⟨g3.symm, Or.inr ⟨g1.symm, h2, Or.inl g2.symm⟩⟩
      | woken w =>
        simp only at h
        obtain ⟨g1, g2⟩ := ih w q' c u' h
        refine ⟨g1, ?_⟩
        rcases g2 with ⟨-, -, -, g5⟩ | ⟨g3, g4, g5⟩
        · exact absurd g5 h2
        · refine Or.inr ⟨g3, g4, Or.inr ?_⟩
          rcases g5 with g5 | g5
          · subst g5; exact List.mem_cons_self _ _
          · exact List.mem_cons_of_mem _ g5

theorem push_data_code {q q' : circular_queue} {d : data} {c : Int} {u : Option data}
    (h : push_data q d = result.ret c q' u) : c = 0 := by
  unfold push_data at h
  simp only at h
  split at h
  · simp only [result.ret.injEq] at h
    exact h.1.symm
  · simp at h

theorem pop_data_code {q q' : circular_queue} {d : data} {c : Int} {u : Option data}
    (h : pop_data q d = result.ret c q' u) : c = 0 := by
  unfold pop_data at h
  simp only at h
  split at h
  · simp only [result.ret.injEq] at h
    exact h.1.symm
  · simp at h

theorem ioctl_set_size (f : file) (mm : allocator) (waits : List wait_result)
    (q : circular_queue) (arg : Nat) (user : Option data) :
    device_ioctl f mm waits q SET_SIZE_OF_QUEUE arg user = set_size_of_queue mm q arg user := by
  unfold device_ioctl
  rw [if_pos rfl]

theorem ioctl_push (f : file) (mm : allocator) (waits : List wait_result)
    (q : circular_queue) (arg : Nat) (d : data) :
    device_ioctl f mm waits q PUSH_DATA arg (some d) =
      match push_wait f (some d) q waits with
      | Sum.inl r => r
      | Sum.inr qb => push_data qb d := by
  unfold device_ioctl
  rw [if_neg (by decide), if_pos rfl]

theorem ioctl_pop (f : file) (mm : allocator) (waits : List wait_result)
    (q : circular_queue) (arg : Nat) (d : data) :
    device_ioctl f mm waits q POP_DATA arg (some d) =
      match pop_wait f (some d) q waits with
      | Sum.inl r => r
      | Sum.inr qb => pop_data qb d := by
  unfold device_ioctl
  rw [if_neg (by decide), if_neg (by decide), if_pos rfl]

theorem ioctl_push_of_ne (f : file) (mm : allocator) (waits : List wait_result)
    (q : circular_queue) (arg : Nat) (d : data) (h : q.count ≠ q.size) :
    device_ioctl f mm waits q PUSH_DATA arg (some d) = push_data q d := by
  rw [ioctl_push, push_wait_of_ne f _ q waits h]

theorem ioctl_pop_of_ne (f : file) (mm : allocator) (waits : List wait_result)
    (q : circular_queue) (arg : Nat) (d : data) (h : q.count ≠ 0) :
    device_ioctl f mm waits q POP_DATA arg (some d) = pop_data q d := by
  rw [ioctl_pop, pop_wait_of_ne f _ q waits h]

/-! ## C1: FIFO refinement -/

/-- C1. For every valid state and every record with a non-negative length: a push made
while there is room (so that it does not sleep), with the data region holding the bytes to
store, returns 0 and turns the contents into contents ++ (the first
min(length, size - count) bytes of the data); a pop made while bytes are stored returns 0,
writes exactly the first min(length, count) bytes of the contents to the front of the
destination region, in order, leaves the rest of the region alone, and leaves the remaining
bytes as the new contents. Both leave a valid state. -/
theorem fifo_refinement (f : file) (mm : allocator) (waits : List wait_result)
    (q : circular_queue) (arg : Nat) (d : data) (hv : Valid q) (hn : 0 ≤ d.length) :
    (q.count < q.size → min d.length (q.size - q.count) ≤ d.data.length →
      ∃ q', device_ioctl f mm waits q PUSH_DATA arg (some d) = result.ret 0 q' (some d) ∧
        Valid q' ∧
        contents q' =
          contents q ++ d.data.take (min d.length (q.size - q.count)).toNat) ∧
    (0 < q.count → min d.length q.count ≤ d.data.length →
      ∃ q' out, device_ioctl f mm waits q POP_DATA arg (some d) =
          result.ret 0 q' (some { length := d.length, data := out }) ∧
        Valid q' ∧
        out.take (min d.length q.count).toNat =
          (contents q).take (min d.length q.count).toNat ∧
        out.drop (min d.length q.count).toNat =
          d.data.drop (min d.length q.count).toNat ∧
        contents q' = (contents q).drop (min d.length q.count).toNat) := by
  constructor
  · intro hc hd
    obtain ⟨q', hq'⟩ := push_data_total hv hn hd
    refine ⟨q', ?_, push_data_valid hv hn hq', push_data_contents hv hn hq'⟩
    rw [ioctl_push_of_ne f mm waits q arg d (by omega), hq']
  · intro hc hd
    obtain ⟨q', r, hq'⟩ := pop_data_total hv hn hd
    obtain ⟨r2, hu, -, h1, h2, h3⟩ := pop_data_contents hv hn hq'
    simp only [Option.some.injEq, data.mk.injEq, true_and] at hu
    subst hu
    refine ⟨q', r, ?_, pop_data_valid hv hn hq', h1, h2, h3⟩
    rw [ioctl_pop_of_ne f mm waits q arg d (by omega), hq']

/-- The wraparound run of the specification: after `configure(4); push "AB"; pop 1`, the
push of "CDE" passes the end of the buffer and the pop of 4 returns "BCDE". -/
theorem fifo_refinement_witness :
    (∃ q', device_ioctl nonblocking plenty [] after_AB_pop1 PUSH_DATA 0
          (some { length := 3, data := bytes "CDE" }) =
          result.ret 0 q' (some { length := 3, data := bytes "CDE" }) ∧
        Valid q' ∧ contents q' = bytes "B" ++ bytes "CDE") ∧
    (∃ q' out, device_ioctl nonblocking plenty [] after_CDE POP_DATA 0
          (some { length := 4, data := [0, 0, 0, 0] }) =
          result.ret 0 q' (some { length := 4, data := out }) ∧
        Valid q' ∧ out.take 4 = bytes "BCDE" ∧ out.drop 4 = [] ∧ contents q' = []) :=
  ⟨(fifo_refinement nonblocking plenty [] after_AB_pop1 0
      { length := 3, data := bytes "CDE" } (by decide) (by decide)).1 (by decide) (by decide),
   (fifo_refinement nonblocking plenty [] after_CDE 0
      { length := 4, data := [0, 0, 0, 0] } (by decide) (by decide)).2 (by decide)
      (by decide)⟩

/-- The run of the specification, call by call, from the state `circular_queue_init` sets
up: `configure(4)`, `push "AB"`, `pop 1` (gives "A"), `push "CDE"`, `pop 4` (gives "BCDE"). -/
theorem wraparound_run :
    device_ioctl nonblocking plenty [] circular_queue_init SET_SIZE_OF_QUEUE 4 none =
        result.ret 0 empty4 none ∧
      device_ioctl nonblocking plenty [] empty4 PUSH_DATA 0
          (some { length := 2, data := bytes "AB" }) =
        result.ret 0 holding_AB (some { length := 2, data := bytes "AB" }) ∧
      device_ioctl nonblocking plenty [] holding_AB POP_DATA 0
          (some { length := 1, data := [0] }) =
        result.ret 0 after_AB_pop1 (some { length := 1, data := bytes "A" }) ∧
      device_ioctl nonblocking plenty [] after_AB_pop1 PUSH_DATA 0
          (some { length := 3, data := bytes "CDE" }) =
        result.ret 0 after_CDE (some { length := 3, data := bytes "CDE" }) ∧
      device_ioctl nonblocking plenty [] after_CDE POP_DATA 0
          (some { length := 4, data := [0, 0, 0, 0] }) =
        result.ret 0 { after_CDE with count := 0 }
          (some { length := 4, data := bytes "BCDE" }) := by
  decide

/-! ## C2: round trip -/

/-- C2. For every valid empty state (count == 0, hence head == tail) and every byte
sequence of length n with 1 <= n <= size: the push of (n, the sequence) returns 0, and the
pop of n that follows returns 0 and hands back exactly the sequence at the front of the
destination region (whose other bytes stay as they were), leaving count == 0 and
head == tail. -/
theorem round_trip (f1 f2 : file) (mm1 mm2 : allocator) (waits1 waits2 : List wait_result)
    (q : circular_queue) (arg1 arg2 : Nat) (payload dst : List byte)
    (hv : Valid q) (hc : q.count = 0) (h1 : 1 ≤ payload.length)
    (h2 : (payload.length : Int) ≤ q.size) (hdst : payload.length ≤ dst.length) :
    ∃ q1 q2,
      device_ioctl f1 mm1 waits1 q PUSH_DATA arg1
          (some { length := payload.length, data := payload }) =
        result.ret 0 q1 (some { length := payload.length, data := payload }) ∧
      device_ioctl f2 mm2 waits2 q1 POP_DATA arg2
          (some { length := payload.length, data := dst }) =
        result.ret 0 q2
          (some { length := payload.length, data := payload ++ dst.drop payload.length }) ∧
      q2.count = 0 ∧ q2.head = q2.tail := by
  obtain ⟨b, hb, hlen, hs, hs0, hh0, hh1, hc0, hc1, ht0, ht1, htl⟩ := hv.unpack
  have hn : (0 : Int) ≤ (payload.length : Int) := by omega
  have hm1 : min (payload.length : Int) (q.size - q.count) = payload.length := by
    rw [hc]; exact min_eq_left (by omega)
  -- the push
  obtain ⟨q1, hq1⟩ := push_data_total (q := q)
    (d := { length := payload.length, data := payload }) hv hn (by simp only [hm1]; omega)
  have hv1 := push_data_valid hv hn hq1
  have hcont := push_data_contents hv hn hq1
  obtain ⟨_, r1, _, _, _, hq1e, _, _, _⟩ := push_data_ret hv hn hq1
  simp only [hm1] at hcont hq1e
  have hcnt1 : q1.count = payload.length := by rw [hq1e]; simp only; omega
  have hq0 : contents q = [] := by
    apply List.eq_nil_of_length_eq_zero
    rw [contents_length, hc]; rfl
  rw [hq0, List.nil_append, Int.toNat_ofNat, List.take_length] at hcont
  -- the pop
  have hm2 : min (payload.length : Int) q1.count = payload.length := by
    rw [hcnt1]; exact min_self _
  obtain ⟨q2, r, hq2⟩ := pop_data_total (q := q1)
    (d := { length := payload.length, data := dst }) hv1 hn (by simp only [hm2]; omega)
  have hv2 := pop_data_valid hv1 hn hq2
  obtain ⟨r2, hu, hrl, g1, g2, -⟩ := pop_data_contents hv1 hn hq2
  obtain ⟨_, _, _, _, _, hq2e, _, _, _⟩ := pop_data_ret hv1 hn hq2
  simp only [Option.some.injEq, data.mk.injEq, true_and] at hu
  subst hu
  simp only [hm2, Int.toNat_ofNat] at g1 g2 hq2e
  rw [hcont, List.take_length] at g1
  have hr : r = payload ++ dst.drop payload.length := by
    rw [← List.take_append_drop payload.length r, g1, g2]
  have hcnt2 : q2.count = 0 := by rw [hq2e]; simp only; omega
  obtain ⟨_, _, _, _, _, _, hh2, _, _, _, _, htl2⟩ := hv2.unpack
  refine ⟨q1, q2, ?_, ?_, hcnt2, by omega⟩
  · rw [ioctl_push_of_ne f1 mm1 waits1 q arg1 _ (by omega), hq1]
  · rw [ioctl_pop_of_ne f2 mm2 waits2 q1 arg2 _ (by omega), hq2, hr]

/-- The round trip of the specification: on the queue `configure(10)` leaves, the push of
"ABCDE" followed by the pop of 5 hands back "ABCDE" and leaves the queue empty. -/
theorem round_trip_witness :
    ∃ q1 q2,
      device_ioctl nonblocking plenty [] empty10 PUSH_DATA 0
          (some { length := 5, data := bytes "ABCDE" }) =
        result.ret 0 q1 (some { length := 5, data := bytes "ABCDE" }) ∧
      device_ioctl nonblocking plenty [] q1 POP_DATA 0
          (some { length := 5, data := [0, 0, 0, 0, 0] }) =
        result.ret 0 q2 (some { length := 5, data := bytes "ABCDE" }) ∧
      q2.count = 0 ∧ q2.head = q2.tail :=
  round_trip nonblocking nonblocking plenty plenty [] [] empty10 0 0 (bytes "ABCDE")
    [0, 0, 0, 0, 0] (by decide) (by decide) (by decide) (by decide) (by decide)

/-! ## C3: what a push returns -/

/-- C3, amended. On a valid state with room, a push with a non-negative length whose data
region holds the bytes to store returns 0 and leaves the record of the caller as it was;
the number of bytes stored, min(length, size - count), is the amount count grows by. -/
theorem push_returns_zero (f : file) (mm : allocator) (waits : List wait_result)
    (q : circular_queue) (arg : Nat) (d : data) (hv : Valid q) (hn : 0 ≤ d.length)
    (hc : q.count < q.size) (hd : min d.length (q.size - q.count) ≤ d.data.length) :
    ∃ q', device_ioctl f mm waits q PUSH_DATA arg (some d) = result.ret 0 q' (some d) ∧
      q'.count = q.count + min d.length (q.size - q.count) := by
  obtain ⟨q', hq'⟩ := push_data_total hv hn hd
  obtain ⟨_, _, _, _, _, hq, _, _, _⟩ := push_data_ret hv hn hq'
  refine ⟨q', ?_, by rw [hq]⟩
  rw [ioctl_push_of_ne f mm waits q arg d (by omega), hq']

/-- After `configure(4)`, the push of (6, "ABCDEF") returns 0, with the record untouched,
and count grows by 4. -/
theorem push_returns_zero_witness :
    ∃ q', device_ioctl nonblocking plenty [] empty4 PUSH_DATA 0
        (some { length := 6, data := bytes "ABCDEF" }) =
        result.ret 0 q' (some { length := 6, data := bytes "ABCDEF" }) ∧
      q'.count = empty4.count + min 6 (empty4.size - empty4.count) :=
  push_returns_zero nonblocking plenty [] empty4 0 { length := 6, data := bytes "ABCDEF" }
    (by decide) (by decide) (by decide) (by decide)

/-- C3 as stated fails: after `configure(10)`, the push of (5, "ABCDE") does not return
min(5, 10 - 0) = 5 (it returns 0). -/
theorem push_returns_written_counterexample :
    ¬ ∃ q' u, device_ioctl nonblocking plenty [] empty10 PUSH_DATA 0
        (some { length := 5, data := bytes "ABCDE" }) =
        result.ret (min 5 (empty10.size - empty10.count)) q' u := by
  rintro ⟨q', u, h⟩
  have h0 : device_ioctl nonblocking plenty [] empty10 PUSH_DATA 0
      (some { length := 5, data := bytes "ABCDE" }) =
      result.ret 0 holding_ABCDE (some { length := 5, data := bytes "ABCDE" }) := by
    decide
  rw [h0] at h
  injection h with h1 _ _
  revert h1
  decide

/-! ## C4: what a pop reports -/

/-- C4, the code at the failing input. A pop of 3 on a queue holding the single byte "A",
into a region holding "xyz": the call returns 0 and the record still says 3, although one
byte was copied; the reader helper then prints three bytes, "Ayz", two of them never
popped. -/
theorem pop_reports_no_length :
    device_ioctl blocking plenty [] holding_A POP_DATA 0
        (some { length := 3, data := bytes "xyz" }) =
      result.ret 0 { holding_A with head := 1, count := 0 }
        (some { length := 3, data := bytes "Ayz" }) ∧
    min (3 : Int) holding_A.count = 1 ∧
    reader_main [] holding_A (fun i => (bytes "xyz").getD i 0) = some (bytes "Ayz") := by
  decide

/-! ## C5: truncation -/

/-- C5. On a valid state with count < size, a push whose length exceeds the free space
size - count (the data region holding at least that many bytes) returns 0, appends exactly
the first size - count bytes of the data to the contents, in order, and leaves
count == size: the contents then have size bytes, none of them from the rest of the
data. -/
theorem truncation (f : file) (mm : allocator) (waits : List wait_result)
    (q : circular_queue) (arg : Nat) (d : data) (hv : Valid q) (hc : q.count < q.size)
    (hn : q.size - q.count < d.length) (hd : q.size - q.count ≤ d.data.length) :
    ∃ q', device_ioctl f mm waits q PUSH_DATA arg (some d) = result.ret 0 q' (some d) ∧
      contents q' = contents q ++ d.data.take (q.size - q.count).toNat ∧
      q'.count = q.size ∧ (contents q').length = q.size.toNat := by
  have hn0 : 0 ≤ d.length := by omega
  have hm : min d.length (q.size - q.count) = q.size - q.count := min_eq_right (le_of_lt hn)
  obtain ⟨q', hq'⟩ := push_data_total hv hn0 (by rw [hm]; exact hd)
  obtain ⟨_, _, _, _, _, hq, _, _, _⟩ := push_data_ret hv hn0 hq'
  have hcont := push_data_contents hv hn0 hq'
  rw [hm] at hcont hq
  have hcnt : q'.count = q.size := by rw [hq]; simp only; omega
  refine ⟨q', ?_, hcont, hcnt, by rw [contents_length, hcnt]⟩
  rw [ioctl_push_of_ne f mm waits q arg d (by omega), hq']

/-- The truncation of the specification: after `configure(4)`, the push of (6, "ABCDEF")
returns 0 and stores "ABCD". -/
theorem truncation_witness :
    ∃ q', device_ioctl nonblocking plenty [] empty4 PUSH_DATA 0
        (some { length := 6, data := bytes "ABCDEF" }) =
        result.ret 0 q' (some { length := 6, data := bytes "ABCDEF" }) ∧
      contents q' = [] ++ bytes "ABCD" ∧ q'.count = 4 ∧ (contents q').length = 4 :=
  truncation nonblocking plenty [] empty4 0 { length := 6, data := bytes "ABCDEF" }
    (by decide) (by decide) (by decide) (by decide)

/-! ## C6: configure when the allocation fails -/

/-- C6, the code at the failing input. `configure(8)` on a queue of capacity 4 holding
"AB", with the allocator out of memory: the call returns `-ENOMEM`, but the buffer is gone
and `size` is 8, with `head`, `tail` and `count` as before; the two bytes cannot be popped
any more (the copy reads through the NULL buffer). -/
theorem configure_failure_loses_buffer :
    device_ioctl nonblocking exhausted [] holding_AB SET_SIZE_OF_QUEUE 8 none =
      result.ret (-ENOMEM) { buffer := none, size := 8, head := 0, tail := 2, count := 2 }
        none ∧
    device_ioctl nonblocking plenty []
        { buffer := none, size := 8, head := 0, tail := 2, count := 2 } POP_DATA 0
        (some { length := 2, data := [0, 0] }) = result.oops := by
  decide

/-! ## C7: a successful configure -/

/-- C7. For every capacity C within the range of the `int` field `size` and every prior
state, a configure(C) whose allocation succeeds returns 0 and leaves a buffer of C bytes,
size == C and head == tail == count == 0, so that nothing is stored; a non-blocking pop
issued on that state returns `-EAGAIN` and leaves it unchanged. -/
theorem configure_resets (f : file) (mm : allocator) (waits : List wait_result)
    (q : circular_queue) (C : Nat) (user : Option data) (hC : (C : Int) ≤ INT_MAX)
    (ha : (kmalloc mm (wrapInt C)).isSome = true) :
    ∃ b, device_ioctl f mm waits q SET_SIZE_OF_QUEUE C user =
        result.ret 0 { buffer := some b, size := C, head := 0, tail := 0, count := 0 } user ∧
      b.length = C ∧
      contents { buffer := some b, size := C, head := 0, tail := 0, count := 0 } = [] ∧
      ∀ (f2 : file) (mm2 : allocator) (waits2 : List wait_result) (arg2 : Nat) (d : data),
        f2.f_flags &&& O_NONBLOCK ≠ 0 →
        device_ioctl f2 mm2 waits2
            { buffer := some b, size := C, head := 0, tail := 0, count := 0 } POP_DATA arg2
            (some d) =
          result.ret (-EAGAIN)
            { buffer := some b, size := C, head := 0, tail := 0, count := 0 } (some d) := by
  unfold INT_MAX at hC
  have hw : wrapInt (C : Int) = C := wrapInt_eq _ (by omega) hC
  rw [hw] at ha
  rw [ioctl_set_size]
  unfold set_size_of_queue
  simp only [hw]
  cases hk : kmalloc mm (C : Int) with
  | none => rw [hk] at ha; simp at ha
  | some b =>
    simp only
    refine ⟨b, rfl, ?_, rfl, ?_⟩
    · unfold kmalloc at hk
      split_ifs at hk
      rw [← Option.some.inj hk, List.length_map, List.length_range, Int.toNat_ofNat]
    · intro f2 mm2 waits2 arg2 d hf
      rw [ioctl_pop, pop_wait_nonblock f2 _ _ waits2 hf rfl]

/-- The instance `configure(10)` on a queue holding "AB", with memory available. -/
theorem configure_resets_witness :
    ∃ b, device_ioctl blocking plenty [] holding_AB SET_SIZE_OF_QUEUE 10 none =
        result.ret 0 { buffer := some b, size := (10 : Nat), head := 0, tail := 0, count := 0 }
          none ∧
      b.length = 10 ∧
      contents { buffer := some b, size := (10 : Nat), head := 0, tail := 0, count := 0 } = [] ∧
      ∀ (f2 : file) (mm2 : allocator) (waits2 : List wait_result) (arg2 : Nat) (d : data),
        f2.f_flags &&& O_NONBLOCK ≠ 0 →
        device_ioctl f2 mm2 waits2
            { buffer := some b, size := (10 : Nat), head := 0, tail := 0, count := 0 } POP_DATA
            arg2 (some d) =
          result.ret (-EAGAIN)
            { buffer := some b, size := (10 : Nat), head := 0, tail := 0, count := 0 }
            (some d) :=
  configure_resets blocking plenty [] holding_AB 10 none (by decide) (by decide)

/-! ## C8: non-blocking exhaustion -/

/-- C8. For every queue state and every readable record, on a file with `O_NONBLOCK`: a
push returns `-EAGAIN` if and only if count == size, and a pop returns `-EAGAIN` if and
only if count == 0; and whenever a push or pop returns `-EAGAIN`, the queue state (buffer,
size, head, tail, count) and the record are as they were. -/
theorem nonblocking_exhaustion (f : file) (mm : allocator) (waits : List wait_result)
    (q : circular_queue) (arg : Nat) (d : data) (hf : f.f_flags &&& O_NONBLOCK ≠ 0) :
    ((∃ q' u, device_ioctl f mm waits q PUSH_DATA arg (some d) = result.ret (-EAGAIN) q' u) ↔
        q.count = q.size) ∧
      ((∃ q' u, device_ioctl f mm waits q POP_DATA arg (some d) = result.ret (-EAGAIN) q' u) ↔
        q.count = 0) ∧
      (∀ q' u, device_ioctl f mm waits q PUSH_DATA arg (some d) = result.ret (-EAGAIN) q' u →
        q' = q ∧ u = some d) ∧
      (∀ q' u, device_ioctl f mm waits q POP_DATA arg (some d) = result.ret (-EAGAIN) q' u →
        q' = q ∧ u = some d) := by
  have hpush : ∀ q' u,
      device_ioctl f mm waits q PUSH_DATA arg (some d) = result.ret (-EAGAIN) q' u →
      q.count = q.size ∧ q' = q ∧ u = some d := by
    intro q' u h
    by_cases hc : q.count = q.size
    · rw [ioctl_push, push_wait_nonblock f _ q waits hf hc] at h
      simp only [result.ret.injEq, true_and] at h
      exact ⟨hc, h.1.symm, h.2.symm⟩
    · rw [ioctl_push_of_ne f mm waits q arg d hc] at h
      have h0 := push_data_code h
      exact absurd h0 (by decide)
  have hpop : ∀ q' u,
      device_ioctl f mm waits q POP_DATA arg (some d) = result.ret (-EAGAIN) q' u →
      q.count = 0 ∧ q' = q ∧ u = some d := by
    intro q' u h
    by_cases hc : q.count = 0
    · rw [ioctl_pop, pop_wait_nonblock f _ q waits hf hc] at h
      simp only [result.ret.injEq, true_and] at h
      exact ⟨hc, h.1.symm, h.2.symm⟩
    · rw [ioctl_pop_of_ne f mm waits q arg d hc] at h
      have h0 := pop_data_code h
      exact absurd h0 (by decide)
  refine ⟨⟨?_, ?_⟩, ⟨?_, ?_⟩, fun q' u h => (hpush q' u h).2, fun q' u h => (hpop q' u h).2⟩
  · rintro ⟨q', u, h⟩
    exact (hpush q' u h).1
  · intro hc
    exact ⟨q, some d, by rw [ioctl_push, push_wait_nonblock f _ q waits hf hc]⟩
  · rintro ⟨q', u, h⟩
    exact (hpop q' u h).1
  · intro hc
    exact ⟨q, some d, by rw [ioctl_pop, pop_wait_nonblock f _ q waits hf hc]⟩

/-- The instance on the full queue `after_CDE`: a non-blocking push returns `-EAGAIN`
there, a non-blocking pop does not. -/
theorem nonblocking_exhaustion_witness :
    ((∃ q' u, device_ioctl nonblocking plenty [] after_CDE PUSH_DATA 0
          (some { length := 1, data := bytes "F" }) = result.ret (-EAGAIN) q' u) ↔
        after_CDE.count = after_CDE.size) ∧
      ((∃ q' u, device_ioctl nonblocking plenty [] after_CDE POP_DATA 0
          (some { length := 1, data := bytes "F" }) = result.ret (-EAGAIN) q' u) ↔
        after_CDE.count = 0) ∧
      (∀ q' u, device_ioctl nonblocking plenty [] after_CDE PUSH_DATA 0
          (some { length := 1, data := bytes "F" }) = result.ret (-EAGAIN) q' u →
        q' = after_CDE ∧ u = some { length := 1, data := bytes "F" }) ∧
      (∀ q' u, device_ioctl nonblocking plenty [] after_CDE POP_DATA 0
          (some { length := 1, data := bytes "F" }) = result.ret (-EAGAIN) q' u →
        q' = after_CDE ∧ u = some { length := 1, data := bytes "F" }) :=
  nonblocking_exhaustion nonblocking plenty [] after_CDE 0 { length := 1, data := bytes "F" }
    (by decide)

/-! ## C9 and C10: invariants of the reachable states -/

theorem set_size_inv {mm : allocator} {q q' : circular_queue} {arg : Nat}
    {user u : Option data} (h : set_size_of_queue mm q arg user = result.ret 0 q' u) :
    Inv q' := by
  unfold set_size_of_queue at h
  simp only at h
  cases hk : kmalloc mm (wrapInt arg) with
  | none =>
    rw [hk] at h
    simp only [result.ret.injEq] at h
    exact absurd h.1 (by decide)
  | some b =>
    rw [hk] at h
    simp only [result.ret.injEq, true_and] at h
    unfold kmalloc at hk
    split_ifs at hk with hc
    have hb := Option.some.inj hk
    obtain ⟨-, hc1, hc2⟩ := hc
    rw [← h.1]
    by_cases hz : wrapInt arg = 0
    · exact Or.inl ⟨hz, rfl⟩
    · refine Or.inr ?_
      unfold Valid
      simp only [Option.map_some', Option.some.injEq]
      refine ⟨?_, hc2, by omega, le_refl 0, by omega, le_refl 0, by omega, ?_⟩
      · rw [← hb, List.length_map, List.length_range]
        omega
      · simp

theorem Inv.valid_of_not_full {q : circular_queue} (h : Inv q) (hc : q.count ≠ q.size) :
    Valid q := by
  rcases h with ⟨h1, h2⟩ | h
  · exact absurd (by rw [h1, h2]) hc
  · exact h

theorem Inv.valid_of_not_empty {q : circular_queue} (h : Inv q) (hc : q.count ≠ 0) :
    Valid q := by
  rcases h with ⟨_, h2⟩ | h
  · exact absurd h2 hc
  · exact h

/-- One call of the handler keeps the invariant. -/
theorem step_inv {f : file} {mm : allocator} {waits : List wait_result}
    {q q' : circular_queue} {cmd arg : Nat} {user u : Option data} {c : Int}
    (hq : Inv q) (hw : ∀ w, wait_result.woken w ∈ waits → Inv w)
    (hcmd : cmd = SET_SIZE_OF_QUEUE ∨ cmd = PUSH_DATA ∨ cmd = POP_DATA)
    (hset : cmd = SET_SIZE_OF_QUEUE → c = 0)
    (hlen : ∀ d, user = some d → 0 ≤ d.length)
    (h : device_ioctl f mm waits q cmd arg user = result.ret c q' u) : Inv q' := by
  rcases hcmd with rfl | rfl | rfl
  · rw [hset rfl, ioctl_set_size] at h
    exact set_size_inv h
  · cases user with
    | none =>
      unfold device_ioctl at h
      rw [if_neg (by decide), if_pos rfl] at h
      simp only [result.ret.injEq] at h
      rw [← h.2.1]; exact hq
    | some d =>
      rw [ioctl_push] at h
      cases hp : push_wait f (some d) q waits with
      | inl r =>
        rw [hp] at h
        simp only at h
        subst h
        obtain ⟨-, g | g⟩ := push_wait_inl f _ waits q q' c u hp
        · rw [g.2.1]; exact hq
        · rcases g.2.2 with g | g
          · rw [g]; exact hq
          · exact hw _ g
      | inr qb =>
        rw [hp] at h
        simp only at h
        obtain ⟨g1, g2⟩ := push_wait_inr f _ waits q qb hp
        have hqb : Inv qb := by
          rcases g2 with g2 | g2
          · rw [g2]; exact hq
          · exact hw _ g2
        exact Or.inr (push_data_valid (hqb.valid_of_not_full g1) (hlen d rfl) h)
  · cases user with
    | none =>
      unfold device_ioctl at h
      rw [if_neg (by decide), if_neg (by decide), if_pos rfl] at h
      simp only [result.ret.injEq] at h
      rw [← h.2.1]; exact hq
    | some d =>
      rw [ioctl_pop] at h
      cases hp : pop_wait f (some d) q waits with
      | inl r =>
        rw [hp] at h
        simp only at h
        subst h
        obtain ⟨-, g | g⟩ := pop_wait_inl f _ waits q q' c u hp
        · rw [g.2.1]; exact hq
        · rcases g.2.2 with g | g
          · rw [g]; exact hq
          · exact hw _ g
      | inr qb =>
        rw [hp] at h
        simp only at h
        obtain ⟨g1, g2⟩ := pop_wait_inr f _ waits q qb hp
        have hqb : Inv qb := by
          rcases g2 with g2 | g2
          · rw [g2]; exact hq
          · exact hw _ g2
        exact Or.inr (pop_data_valid (hqb.valid_of_not_empty g1) (hlen d rfl) h)

theorem Reachable.inv {q : circular_queue} (h : Reachable q) : Inv q := by
  induction h with
  | init => exact Or.inl ⟨rfl, rfl⟩
  | step f mm waits q cmd arg user c q' u _ _ hcmd hset hlen hstep ih1 ih2 =>
    exact step_inv ih1 ih2 hcmd hset hlen hstep

theorem ReachableOk.reachable {q : circular_queue} (h : ReachableOk q) : Reachable q := by
  induction h with
  | init => exact Reachable.init
  | step f mm waits q cmd arg user q' u _ _ hcmd hlen hstep ih1 ih2 =>
    exact Reachable.step f mm waits q cmd arg user 0 q' u ih1 ih2 hcmd (fun _ => rfl) hlen hstep

/-- C9. In every state reached from the initial state by configure, push and pop calls
with non-negative lengths in which every configure succeeds, 0 <= count <= size, and when
size > 0 both head and tail lie in [0, size). -/
theorem bounds_invariant (q : circular_queue) (h : Reachable q) :
    0 ≤ q.count ∧ q.count ≤ q.size ∧
      (0 < q.size → 0 ≤ q.head ∧ q.head < q.size ∧ 0 ≤ q.tail ∧ q.tail < q.size) := by
  rcases h.inv with ⟨h1, h2⟩ | hv
  · exact ⟨by omega, by omega, fun hs => absurd hs (by omega)⟩
  · obtain ⟨b, hb, hlen, hs, hs0, hh0, hh1, hc0, hc1, ht0, ht1, htl⟩ := hv.unpack
    exact ⟨hc0, hc1, fun _ => ⟨hh0, hh1, ht0, ht1⟩⟩

/-- The instance on the state reached by `configure(4); push "AB"`. -/
theorem bounds_invariant_witness :
    Reachable holding_AB ∧ 0 ≤ holding_AB.count ∧ holding_AB.count ≤ holding_AB.size ∧
      (0 < holding_AB.size → 0 ≤ holding_AB.head ∧ holding_AB.head < holding_AB.size ∧
        0 ≤ holding_AB.tail ∧ holding_AB.tail < holding_AB.size) :=
  have hr : Reachable holding_AB :=
    Reachable.step nonblocking plenty [] empty4 PUSH_DATA 0
      (some { length := 2, data := bytes "AB" }) 0 holding_AB
      (some { length := 2, data := bytes "AB" })
      (Reachable.step nonblocking plenty [] circular_queue_init SET_SIZE_OF_QUEUE 4 none 0
        empty4 none Reachable.init (fun _ hw => absurd hw (List.not_mem_nil _))
        (Or.inl rfl) (fun _ => rfl) (fun _ hd => Option.noConfusion hd) (by decide))
      (fun _ hw => absurd hw (List.not_mem_nil _)) (Or.inr (Or.inl rfl))
      (fun hc => absurd hc (by decide))
      (fun d hd => by rw [← Option.some.inj hd]; decide) (by decide)
  ⟨hr, bounds_invariant holding_AB hr⟩

theorem reachableOk_empty4 : ReachableOk empty4 :=
  ReachableOk.step nonblocking plenty [] circular_queue_init SET_SIZE_OF_QUEUE 4 none
    empty4 none ReachableOk.init (fun _ hw => absurd hw (List.not_mem_nil _))
    (Or.inl rfl) (fun _ hd => Option.noConfusion hd) (by decide)

theorem reachableOk_full_ABCD : ReachableOk full_ABCD :=
  ReachableOk.step nonblocking plenty [] empty4 PUSH_DATA 0
    (some { length := 4, data := bytes "ABCD" }) full_ABCD
    (some { length := 4, data := bytes "ABCD" }) reachableOk_empty4
    (fun _ hw => absurd hw (List.not_mem_nil _)) (Or.inr (Or.inl rfl))
    (fun d hd => by rw [← Option.some.inj hd]; decide) (by decide)

/-- C10, amended. In every state with size > 0 reached from the initial state by
successful configure, push and pop calls with non-negative lengths,
(tail - head) mod size == count mod size: the difference of the cursors is count while the
queue is not full, and 0 when it is full (count == size). -/
theorem cursor_difference (q : circular_queue) (h : ReachableOk q) (hs : 0 < q.size) :
    (q.tail - q.head) % q.size = q.count % q.size ∧
      (q.count < q.size → (q.tail - q.head) % q.size = q.count) ∧
      (q.count = q.size → (q.tail - q.head) % q.size = 0) := by
  have hv : Valid q := by
    rcases h.reachable.inv with ⟨h1, _⟩ | hv
    · omega
    · exact hv
  obtain ⟨b, hb, hlen, hk, hs0, hh0, hh1, hc0, hc1, ht0, ht1, htl⟩ := hv.unpack
  have e0 : (q.tail - q.head) % q.size = (q.tail - q.head + q.size) % q.size :=
    (Int.add_emod_self).symm
  have e1 := emod_cases (q.tail - q.head + q.size) q.size (by omega) (by omega)
  have e2 : q.count < q.size → q.count % q.size = q.count :=
    fun hlt => Int.emod_eq_of_lt hc0 hlt
  have e3 : q.count = q.size → q.count % q.size = 0 := fun he => by rw [he, Int.emod_self]
  rw [e0]
  rcases lt_or_eq_of_le hc1 with hlt | heq
  · rw [e2 hlt]
    exact ⟨by omega, fun _ => by omega, fun he => by omega⟩
  · rw [e3 heq]
    exact ⟨by omega, fun hlt => by omega, fun _ => by omega⟩

/-- The instance on the full queue reached by `configure(4); push "ABCD"`: the cursors
coincide and their difference is 0 = 4 mod 4. -/
theorem cursor_difference_witness :
    ReachableOk full_ABCD ∧ 0 < full_ABCD.size ∧
      (full_ABCD.tail - full_ABCD.head) % full_ABCD.size = full_ABCD.count % full_ABCD.size ∧
      (full_ABCD.count < full_ABCD.size →
        (full_ABCD.tail - full_ABCD.head) % full_ABCD.size = full_ABCD.count) ∧
      (full_ABCD.count = full_ABCD.size →
        (full_ABCD.tail - full_ABCD.head) % full_ABCD.size = 0) :=
  ⟨reachableOk_full_ABCD, by decide,
    cursor_difference full_ABCD reachableOk_full_ABCD (by decide)⟩

/-- C10 as stated fails: `configure(4); push "ABCD"` reaches a state with size 4 in which
(tail - head) mod size is 0 while count is 4. -/
theorem cursor_difference_counterexample :
    ¬ ∀ q : circular_queue, ReachableOk q → 0 < q.size →
      (q.tail - q.head) % q.size = q.count := by
  intro h
  exact absurd (h full_ABCD reachableOk_full_ABCD (by decide)) (by decide)

/-! ## C11: a queue of capacity 0 -/

/-- A push loop that ends the call leaves it in a full state. -/
theorem push_wait_inl_full (f : file) (u : Option data) (waits : List wait_result) :
    ∀ (q q' : circular_queue) (c : Int) (u' : Option data),
      push_wait f u q waits = Sum.inl (result.ret c q' u') → q'.count = q'.size := by
  induction waits with
  | nil =>
    intro q q' c u' h
    unfold push_wait at h
    split_ifs at h with h1 h2
    · simp only [Sum.inl.injEq, result.ret.injEq] at h
      rw [← h.2.1]; exact h1
    · simp at h
  | cons ev rest ih =>
    intro q q' c u' h
    unfold push_wait at h
    split_ifs at h with h1 h2
    · simp only [Sum.inl.injEq, result.ret.injEq] at h
      rw [← h.2.1]; exact h1
    · cases ev with
      | interrupted =>
        simp only [Sum.inl.injEq, result.ret.injEq] at h
        rw [← h.2.1]; exact h1
      | woken w => exact ih w q' c u' h

/-- A pop loop that ends the call leaves it in an empty state. -/
theorem pop_wait_inl_empty (f : file) (u : Option data) (waits : List wait_result) :
    ∀ (q q' : circular_queue) (c : Int) (u' : Option data),
      pop_wait f u q waits = Sum.inl (result.ret c q' u') → q'.count = 0 := by
  induction waits with
  | nil =>
    intro q q' c u' h
    unfold pop_wait at h
    split_ifs at h with h1 h2
    · simp only [Sum.inl.injEq, result.ret.injEq] at h
      rw [← h.2.1]; exact h1
    · simp at h
  | cons ev rest ih =>
    intro q q' c u' h
    unfold pop_wait at h
    split_ifs at h with h1 h2
    · simp only [Sum.inl.injEq, result.ret.injEq] at h
      rw [← h.2.1]; exact h1
    · cases ev with
      | interrupted =>
        simp only [Sum.inl.injEq, result.ret.injEq] at h
        rw [← h.2.1]; exact h1
      | woken w => exact ih w q' c u' h

/-- The outcomes of the push loop: it is left for the critical section (`Sum.inr`), or the
call returns `-EAGAIN` or `-ERESTARTSYS`, or the caller stays asleep. -/
theorem push_wait_cases (f : file) (u : Option data) (waits : List wait_result) :
    ∀ (q : circular_queue) (r : result), push_wait f u q waits = Sum.inl r →
      (∃ q', r = result.ret (-EAGAIN) q' u) ∨ (∃ q', r = result.ret (-ERESTARTSYS) q' u) ∨
        (∃ q', r = result.blocked q' ∧ q'.count = q'.size ∧
          (q' = q ∨ wait_result.woken q' ∈ waits)) := by
  induction waits with
  | nil =>
    intro q r h
    unfold push_wait at h
    split_ifs at h with h1 h2
    · exact Or.inl ⟨q, (Sum.inl.inj h).symm⟩
    · exact Or.inr (Or.inr ⟨q, (Sum.inl.inj h).symm, h1, Or.inl rfl⟩)
  | cons ev rest ih =>
    intro q r h
    unfold push_wait at h
    split_ifs at h with h1 h2
    · exact Or.inl ⟨q, (Sum.inl.inj h).symm⟩
    · cases ev with
      | interrupted => exact Or.inr (Or.inl ⟨q, (Sum.inl.inj h).symm⟩)
      | woken w =>
        rcases ih w r h with g | g | ⟨q', g1, g2, g3⟩
        · exact Or.inl g
        · exact Or.inr (Or.inl g)
        · refine Or.inr (Or.inr ⟨q', g1, g2, Or.inr ?_⟩)
          rcases g3 with g3 | g3
          · subst g3; exact List.mem_cons_self _ _
          · exact List.mem_cons_of_mem _ g3

/-- The outcomes of the pop loop, as for the push loop. -/
theorem pop_wait_cases (f : file) (u : Option data) (waits : List wait_result) :
    ∀ (q : circular_queue) (r : result), pop_wait f u q waits = Sum.inl r →
      (∃ q', r = result.ret (-EAGAIN) q' u) ∨ (∃ q', r = result.ret (-ERESTARTSYS) q' u) ∨
        (∃ q', r = result.blocked q' ∧ q'.count = 0 ∧
          (q' = q ∨ wait_result.woken q' ∈ waits)) := by
  induction waits with
  | nil =>
    intro q r h
    unfold pop_wait at h
    split_ifs at h with h1 h2
    · exact Or.inl ⟨q, (Sum.inl.inj h).symm⟩
    · exact Or.inr (Or.inr ⟨q, (Sum.inl.inj h).symm, h1, Or.inl rfl⟩)
  | cons ev rest ih =>
    intro q r h
    unfold pop_wait at h
    split_ifs at h with h1 h2
    · exact Or.inl ⟨q, (Sum.inl.inj h).symm⟩
    · cases ev with
      | interrupted => exact Or.inr (Or.inl ⟨q, (Sum.inl.inj h).symm⟩)
      | woken w =>
        rcases ih w r h with g | g | ⟨q', g1, g2, g3⟩
        · exact Or.inl g
        · exact Or.inr (Or.inl g)
        · refine Or.inr (Or.inr ⟨q', g1, g2, Or.inr ?_⟩)
          rcases g3 with g3 | g3
          · subst g3; exact List.mem_cons_self _ _
          · exact List.mem_cons_of_mem _ g3

theorem push_wait_blocking_nil (f : file) (u : Option data) (q : circular_queue)
    (hf : ¬ f.f_flags &&& O_NONBLOCK ≠ 0) (h : q.count = q.size) :
    push_wait f u q [] = Sum.inl (result.blocked q) := by
  simp [push_wait, h, hf]

theorem pop_wait_blocking_nil (f : file) (u : Option data) (q : circular_queue)
    (hf : ¬ f.f_flags &&& O_NONBLOCK ≠ 0) (h : q.count = 0) :
    pop_wait f u q [] = Sum.inl (result.blocked q) := by
  simp [pop_wait, h, hf]

theorem push_wait_interrupted (f : file) (u : Option data) (q : circular_queue)
    (rest : List wait_result) (hf : ¬ f.f_flags &&& O_NONBLOCK ≠ 0) (h : q.count = q.size) :
    push_wait f u q (wait_result.interrupted :: rest) =
      Sum.inl (result.ret (-ERESTARTSYS) q u) := by
  simp [push_wait, h, hf]

theorem pop_wait_interrupted (f : file) (u : Option data) (q : circular_queue)
    (rest : List wait_result) (hf : ¬ f.f_flags &&& O_NONBLOCK ≠ 0) (h : q.count = 0) :
    pop_wait f u q (wait_result.interrupted :: rest) =
      Sum.inl (result.ret (-ERESTARTSYS) q u) := by
  simp [pop_wait, h, hf]

theorem Reachable.count_eq_zero {q : circular_queue} (h : Reachable q) (hs : q.size = 0) :
    q.count = 0 := by
  rcases h.inv with ⟨_, h2⟩ | hv
  · exact h2
  · exact absurd hs (ne_of_gt hv.2.2.1)

/-- C11. In every reachable state with size == 0: count == 0; the wait conditions
count < size of a blocking push and count > 0 of a blocking pop are false; a non-blocking
push or pop returns `-EAGAIN` and a blocking one stays asleep, the state left as it was;
and as long as the capacity stays 0 (every state found at a wake-up is reachable with
size == 0), no push or pop succeeds: the call returns `-EAGAIN` or `-ERESTARTSYS` or stays
asleep, in the state it was issued on or one found at a wake-up. Moreover, from a reachable
state, the critical sections, which reduce modulo size, are entered only in states with
size > 0. -/
theorem unusable_at_capacity_zero (q : circular_queue) (h : Reachable q) (hs : q.size = 0) :
    q.count = 0 ∧ ¬ q.count < q.size ∧ ¬ q.count > 0 ∧
      (∀ (f : file) (mm : allocator) (waits : List wait_result) (arg : Nat) (d : data),
        f.f_flags &&& O_NONBLOCK ≠ 0 →
        device_ioctl f mm waits q PUSH_DATA arg (some d) = result.ret (-EAGAIN) q (some d) ∧
          device_ioctl f mm waits q POP_DATA arg (some d) =
            result.ret (-EAGAIN) q (some d)) ∧
      (∀ (f : file) (mm : allocator) (arg : Nat) (d : data),
        ¬ f.f_flags &&& O_NONBLOCK ≠ 0 →
        device_ioctl f mm [] q PUSH_DATA arg (some d) = result.blocked q ∧
          device_ioctl f mm [] q POP_DATA arg (some d) = result.blocked q) ∧
      (∀ (f : file) (mm : allocator) (waits : List wait_result) (cmd arg : Nat) (d : data),
        cmd = PUSH_DATA ∨ cmd = POP_DATA →
        (∀ w, wait_result.woken w ∈ waits → Reachable w ∧ w.size = 0) →
        ∃ q', (q' = q ∨ wait_result.woken q' ∈ waits) ∧
          (device_ioctl f mm waits q cmd arg (some d) = result.ret (-EAGAIN) q' (some d) ∨
            device_ioctl f mm waits q cmd arg (some d) =
              result.ret (-ERESTARTSYS) q' (some d) ∨
            device_ioctl f mm waits q cmd arg (some d) = result.blocked q')) ∧
      (∀ (f : file) (u : Option data) (waits : List wait_result) (qb : circular_queue),
        (∀ w, wait_result.woken w ∈ waits → Reachable w) →
        push_wait f u q waits = Sum.inr qb ∨ pop_wait f u q waits = Sum.inr qb →
        0 < qb.size) := by
  have hc : q.count = 0 := h.count_eq_zero hs
  have hfull : q.count = q.size := by rw [hc, hs]
  refine ⟨hc, by omega, by omega, ?_, ?_, ?_, ?_⟩
  · intro f mm waits arg d hf
    constructor
    · rw [ioctl_push, push_wait_nonblock f _ q waits hf hfull]
    · rw [ioctl_pop, pop_wait_nonblock f _ q waits hf hc]
  · intro f mm arg d hf
    constructor
    · rw [ioctl_push, push_wait_blocking_nil f _ q hf hfull]
    · rw [ioctl_pop, pop_wait_blocking_nil f _ q hf hc]
  · intro f mm waits cmd arg d hcmd hw
    have hzero : ∀ qb, (qb = q ∨ wait_result.woken qb ∈ waits) →
        qb.count = 0 ∧ qb.size = 0 := by
      intro qb hqb
      rcases hqb with hqb | hqb
      · rw [hqb]; exact ⟨hc, hs⟩
      · exact ⟨(hw qb hqb).1.count_eq_zero (hw qb hqb).2, (hw qb hqb).2⟩
    rcases hcmd with rfl | rfl
    · rw [ioctl_push]
      cases hp : push_wait f (some d) q waits with
      | inl r =>
        simp only
        rcases push_wait_cases f _ waits q r hp with ⟨q', g⟩ | ⟨q', g⟩ | ⟨q', g1, _, g3⟩
        · rw [g] at hp
          obtain ⟨-, g2 | g2⟩ := push_wait_inl f _ waits q q' _ _ hp
          · exact ⟨q', Or.inl g2.2.1, Or.inl g⟩
          · exact ⟨q', g2.2.2, Or.inl g⟩
        · rw [g] at hp
          obtain ⟨-, g2 | g2⟩ := push_wait_inl f _ waits q q' _ _ hp
          · exact ⟨q', Or.inl g2.2.1, Or.inr (Or.inl g)⟩
          · exact ⟨q', g2.2.2, Or.inr (Or.inl g)⟩
        · exact ⟨q', g3, Or.inr (Or.inr g1)⟩
      | inr qb =>
        obtain ⟨g1, g2⟩ := push_wait_inr f _ waits q qb hp
        obtain ⟨z1, z2⟩ := hzero qb g2
        exact absurd (by rw [z1, z2]) g1
    · rw [ioctl_pop]
      cases hp : pop_wait f (some d) q waits with
      | inl r =>
        simp only
        rcases pop_wait_cases f _ waits q r hp with ⟨q', g⟩ | ⟨q', g⟩ | ⟨q', g1, _, g3⟩
        · rw [g] at hp
          obtain ⟨-, g2 | g2⟩ := pop_wait_inl f _ waits q q' _ _ hp
          · exact ⟨q', Or.inl g2.2.1, Or.inl g⟩
          · exact ⟨q', g2.2.2, Or.inl g⟩
        · rw [g] at hp
          obtain ⟨-, g2 | g2⟩ := pop_wait_inl f _ waits q q' _ _ hp
          · exact ⟨q', Or.inl g2.2.1, Or.inr (Or.inl g)⟩
          · exact ⟨q', g2.2.2, Or.inr (Or.inl g)⟩
        · exact ⟨q', g3, Or.inr (Or.inr g1)⟩
      | inr qb =>
        obtain ⟨g1, g2⟩ := pop_wait_inr f _ waits q qb hp
        exact absurd (hzero qb g2).1 g1
  · intro f u waits qb hw hp
    have hreach : ∀ qb, (qb = q ∨ wait_result.woken qb ∈ waits) → Reachable qb := by
      intro qb hqb
      rcases hqb with hqb | hqb
      · rw [hqb]; exact h
      · exact hw qb hqb
    rcases hp with hp | hp
    · obtain ⟨g1, g2⟩ := push_wait_inr f _ waits q qb hp
      exact ((hreach qb g2).inv.valid_of_not_full g1).2.2.1
    · obtain ⟨g1, g2⟩ := pop_wait_inr f _ waits q qb hp
      exact ((hreach qb g2).inv.valid_of_not_empty g1).2.2.1

/-- The instance on the state `circular_queue_init` sets up (no buffer, size 0). -/
theorem unusable_at_capacity_zero_witness :
    Reachable circular_queue_init ∧ circular_queue_init.size = 0 ∧
      circular_queue_init.count = 0 ∧
      device_ioctl nonblocking plenty [] circular_queue_init PUSH_DATA 0
          (some { length := 1, data := bytes "A" }) =
        result.ret (-EAGAIN) circular_queue_init (some { length := 1, data := bytes "A" }) ∧
      device_ioctl blocking plenty [] circular_queue_init POP_DATA 0
          (some { length := 1, data := bytes "A" }) = result.blocked circular_queue_init :=
  have h := unusable_at_capacity_zero circular_queue_init Reachable.init rfl
  ⟨Reachable.init, rfl, h.1,
    (h.2.2.2.1 nonblocking plenty [] 0 { length := 1, data := bytes "A" } (by decide)).1,
    (h.2.2.2.2.1 blocking plenty 0 { length := 1, data := bytes "A" } (by decide)).2⟩

/-! ## C12: inaccessible caller memory -/

/-- C12, the code at the failing input. With the header unreadable the call returns
`-EFAULT` and leaves the state alone; but a push of 3 bytes whose data region is not
accessible, and a pop of 2 bytes into a region that is not accessible, do not return
`-EFAULT`: the `memcpy` runs into the inaccessible memory and the kernel faults. -/
theorem payload_fault_is_not_EFAULT :
    device_ioctl nonblocking plenty [] empty4 PUSH_DATA 0 none =
        result.ret (-EFAULT) empty4 none ∧
      device_ioctl nonblocking plenty [] holding_AB POP_DATA 0 none =
        result.ret (-EFAULT) holding_AB none ∧
      device_ioctl nonblocking plenty [] empty4 PUSH_DATA 0
          (some { length := 3, data := [] }) = result.oops ∧
      device_ioctl nonblocking plenty [] holding_AB POP_DATA 0
          (some { length := 2, data := [] }) = result.oops := by
  decide

/-! ## C13: cancellation -/

/-- C13. On a file without `O_NONBLOCK`: a push that sleeps on a full queue, and a pop
that sleeps on an empty queue, return `-ERESTARTSYS` when the sleep is interrupted, with
the queue state and the record as they were. Whenever a push or pop returns
`-ERESTARTSYS`, the state left is the one the interrupted sleep started in (the state the
call was issued on, or the one found at the last wake-up), full for a push and empty for a
pop, and the record is untouched. The wait loops end the call only with `-EAGAIN` or
`-ERESTARTSYS` (or the caller stays asleep); otherwise they are left for the critical
section, which returns 0 if it returns. -/
theorem cancellation (f : file) (mm : allocator) (q : circular_queue) (arg : Nat) (d : data) :
    (∀ rest : List wait_result, ¬ f.f_flags &&& O_NONBLOCK ≠ 0 → q.count = q.size →
        device_ioctl f mm (wait_result.interrupted :: rest) q PUSH_DATA arg (some d) =
          result.ret (-ERESTARTSYS) q (some d)) ∧
      (∀ rest : List wait_result, ¬ f.f_flags &&& O_NONBLOCK ≠ 0 → q.count = 0 →
        device_ioctl f mm (wait_result.interrupted :: rest) q POP_DATA arg (some d) =
          result.ret (-ERESTARTSYS) q (some d)) ∧
      (∀ (waits : List wait_result) (q' : circular_queue) (u : Option data),
        device_ioctl f mm waits q PUSH_DATA arg (some d) = result.ret (-ERESTARTSYS) q' u →
        u = some d ∧ (q' = q ∨ wait_result.woken q' ∈ waits) ∧ q'.count = q'.size) ∧
      (∀ (waits : List wait_result) (q' : circular_queue) (u : Option data),
        device_ioctl f mm waits q POP_DATA arg (some d) = result.ret (-ERESTARTSYS) q' u →
        u = some d ∧ (q' = q ∨ wait_result.woken q' ∈ waits) ∧ q'.count = 0) ∧
      (∀ (waits : List wait_result) (r : result),
        push_wait f (some d) q waits = Sum.inl r ∨ pop_wait f (some d) q waits = Sum.inl r →
        (∃ q', r = result.ret (-EAGAIN) q' (some d)) ∨
          (∃ q', r = result.ret (-ERESTARTSYS) q' (some d)) ∨ (∃ q', r = result.blocked q')) ∧
      (∀ (waits : List wait_result) (c : Int) (q' : circular_queue) (u : Option data),
        device_ioctl f mm waits q PUSH_DATA arg (some d) = result.ret c q' u ∨
          device_ioctl f mm waits q POP_DATA arg (some d) = result.ret c q' u →
        c = 0 ∨ c = -EAGAIN ∨ c = -ERESTARTSYS) := by
  refine ⟨?_, ?_, ?_, ?_, ?_, ?_⟩
  · intro rest hf hc
    rw [ioctl_push, push_wait_interrupted f _ q rest hf hc]
  · intro rest hf hc
    rw [ioctl_pop, pop_wait_interrupted f _ q rest hf hc]
  · intro waits q' u h
    rw [ioctl_push] at h
    cases hp : push_wait f (some d) q waits with
    | inl r =>
      rw [hp] at h
      simp only at h
      subst h
      obtain ⟨g1, g2 | g2⟩ := push_wait_inl f _ waits q q' _ u hp
      · exact absurd g2.1 (by decide)
      · exact ⟨g1, g2.2.2, push_wait_inl_full f _ waits q q' _ u hp⟩
    | inr qb =>
      rw [hp] at h
      simp only at h
      exact absurd (push_data_code h) (by decide)
  · intro waits q' u h
    rw [ioctl_pop] at h
    cases hp : pop_wait f (some d) q waits with
    | inl r =>
      rw [hp] at h
      simp only at h
      subst h
      obtain ⟨g1, g2 | g2⟩ := pop_wait_inl f _ waits q q' _ u hp
      · exact absurd g2.1 (by decide)
      · exact ⟨g1, g2.2.2, pop_wait_inl_empty f _ waits q q' _ u hp⟩
    | inr qb =>
      rw [hp] at h
      simp only at h
      exact absurd (pop_data_code h) (by decide)
  · intro waits r h
    rcases h with h | h
    · rcases push_wait_cases f _ waits q r h with g | g | ⟨q', g, _⟩
      · exact Or.inl g
      · exact Or.inr (Or.inl g)
      · exact Or.inr (Or.inr ⟨q', g⟩)
    · rcases pop_wait_cases f _ waits q r h with g | g | ⟨q', g, _⟩
      · exact Or.inl g
      · exact Or.inr (Or.inl g)
      · exact Or.inr (Or.inr ⟨q', g⟩)
  · intro waits c q' u h
    rcases h with h | h
    · rw [ioctl_push] at h
      cases hp : push_wait f (some d) q waits with
      | inl r =>
        rw [hp] at h
        simp only at h
        subst h
        obtain ⟨-, g2 | g2⟩ := push_wait_inl f _ waits q q' c u hp
        · exact Or.inr (Or.inl g2.1)
        · exact Or.inr (Or.inr g2.1)
      | inr qb =>
        rw [hp] at h
        simp only at h
        exact Or.inl (push_data_code h)
    · rw [ioctl_pop] at h
      cases hp : pop_wait f (some d) q waits with
      | inl r =>
        rw [hp] at h
        simp only at h
        subst h
        obtain ⟨-, g2 | g2⟩ := pop_wait_inl f _ waits q q' c u hp
        · exact Or.inr (Or.inl g2.1)
        · exact Or.inr (Or.inr g2.1)
      | inr qb =>
        rw [hp] at h
        simp only at h
        exact Or.inl (pop_data_code h)

/-- The instance: a blocking push on the full queue `full_ABCD` and a blocking pop on the
empty queue `empty4`, each interrupted in its first sleep. -/
theorem cancellation_witness :
    device_ioctl blocking plenty [wait_result.interrupted] full_ABCD PUSH_DATA 0
        (some { length := 1, data := bytes "E" }) =
        result.ret (-ERESTARTSYS) full_ABCD (some { length := 1, data := bytes "E" }) ∧
      device_ioctl blocking plenty [wait_result.interrupted] empty4 POP_DATA 0
        (some { length := 1, data := bytes "E" }) =
        result.ret (-ERESTARTSYS) empty4 (some { length := 1, data := bytes "E" }) :=
  ⟨(cancellation blocking plenty full_ABCD 0 { length := 1, data := bytes "E" }).1 []
      (by decide) (by decide),
    (cancellation blocking plenty empty4 0 { length := 1, data := bytes "E" }).2.1 []
      (by decide) (by decide)⟩

/-! ## C14: unknown operation codes -/

/-- C14. For every operation code other than `SET_SIZE_OF_QUEUE`, `PUSH_DATA` and
`POP_DATA`, every argument and every queue state, the call returns `-EINVAL` and leaves
the queue state (and the memory of the caller) unchanged. -/
theorem unknown_command (f : file) (mm : allocator) (waits : List wait_result)
    (q : circular_queue) (cmd arg : Nat) (user : Option data)
    (h1 : cmd ≠ SET_SIZE_OF_QUEUE) (h2 : cmd ≠ PUSH_DATA) (h3 : cmd ≠ POP_DATA) :
    device_ioctl f mm waits q cmd arg user = result.ret (-EINVAL) q user := by
  unfold device_ioctl
  rw [if_neg h1, if_neg h2, if_neg h3]

/-- The instance on the code `_IOR('a', 'b', struct data)`, which differs from `PUSH_DATA`
in the direction bits only. -/
theorem unknown_command_witness :
    device_ioctl blocking plenty [] holding_AB (_IOR 97 98 16) 0
        (some { length := 1, data := bytes "E" }) =
      result.ret (-EINVAL) holding_AB (some { length := 1, data := bytes "E" }) :=
  unknown_command blocking plenty [] holding_AB (_IOR 97 98 16) 0
    (some { length := 1, data := bytes "E" }) (by decide) (by decide) (by decide)

/-! ## C16: the split copy stays in bounds -/

theorem size_t_eq (n : Int) (h0 : 0 ≤ n) (h1 : n ≤ 1073741823) : size_t n = n.toNat := by
  unfold size_t
  rw [Int.emod_eq_of_lt h0 (by omega)]

theorem mem_memcpy_accesses {doff soff n : Int} {x : Int × Int} (h0 : 0 ≤ n)
    (h1 : n ≤ 1073741823) (hx : x ∈ memcpy_accesses doff soff n) :
    ∃ i : Nat, (i : Int) < n ∧ x.1 = doff + i ∧ x.2 = soff + i := by
  unfold memcpy_accesses at hx
  rw [size_t_eq n h0 h1] at hx
  obtain ⟨i, hi, hxi⟩ := List.mem_map.mp hx
  rw [List.mem_range] at hi
  exact ⟨i, by omega, by rw [← hxi], by rw [← hxi]⟩

theorem push_accesses_wrap {q : circular_queue} {a : Int} (hs : q.size ≤ 1073741823)
    (ht0 : 0 ≤ q.tail) (ht1 : q.tail < q.size) (ha1 : a ≤ q.size)
    (hw : q.size < q.tail + a) :
    push_accesses q a =
      ((List.range (q.size - q.tail).toNat).map fun (i : Nat) => (q.tail + (i : Int), (i : Int)))
        ++ (List.range (a - (q.size - q.tail)).toNat).map fun (i : Nat) =>
          ((i : Int), q.size - q.tail + (i : Int)) := by
  unfold push_accesses
  rw [wrapInt_eq (q.tail + a) (by omega) (by omega), if_pos hw]
  simp only
  rw [wrapInt_eq (q.size - q.tail) (by omega) (by omega),
    wrapInt_eq (a - (q.size - q.tail)) (by omega) (by omega)]
  unfold memcpy_accesses
  rw [size_t_eq _ (by omega) (by omega), size_t_eq _ (by omega) (by omega)]
  simp only [zero_add]

theorem push_accesses_flat {q : circular_queue} {a : Int} (hs : q.size ≤ 1073741823)
    (ht0 : 0 ≤ q.tail) (ht1 : q.tail < q.size) (ha0 : 0 ≤ a) (ha1 : a ≤ q.size)
    (hw : q.tail + a ≤ q.size) :
    push_accesses q a =
      (List.range a.toNat).map fun (i : Nat) => (q.tail + (i : Int), (i : Int)) := by
  unfold push_accesses
  rw [wrapInt_eq (q.tail + a) (by omega) (by omega), if_neg (by omega)]
  unfold memcpy_accesses
  rw [size_t_eq _ ha0 (by omega)]
  simp only [zero_add]

theorem pop_accesses_wrap {q : circular_queue} {a : Int} (hs : q.size ≤ 1073741823)
    (hh0 : 0 ≤ q.head) (hh1 : q.head < q.size) (ha1 : a ≤ q.size)
    (hw : q.size < q.head + a) :
    pop_accesses q a =
      ((List.range (q.size - q.head).toNat).map fun (i : Nat) => ((i : Int), q.head + (i : Int)))
        ++ (List.range (a - (q.size - q.head)).toNat).map fun (i : Nat) =>
          (q.size - q.head + (i : Int), (i : Int)) := by
  unfold pop_accesses
  rw [wrapInt_eq (q.head + a) (by omega) (by omega), if_pos hw]
  simp only
  rw [wrapInt_eq (q.size - q.head) (by omega) (by omega),
    wrapInt_eq (a - (q.size - q.head)) (by omega) (by omega)]
  unfold memcpy_accesses
  rw [size_t_eq _ (by omega) (by omega), size_t_eq _ (by omega) (by omega)]
  simp only [zero_add]

theorem pop_accesses_flat {q : circular_queue} {a : Int} (hs : q.size ≤ 1073741823)
    (hh0 : 0 ≤ q.head) (hh1 : q.head < q.size) (ha0 : 0 ≤ a) (ha1 : a ≤ q.size)
    (hw : q.head + a ≤ q.size) :
    pop_accesses q a =
      (List.range a.toNat).map fun (i : Nat) => ((i : Int), q.head + (i : Int)) := by
  unfold pop_accesses
  rw [wrapInt_eq (q.head + a) (by omega) (by omega), if_neg (by omega)]
  unfold memcpy_accesses
  rw [size_t_eq _ ha0 (by omega)]
  simp only [zero_add]

/-- Every byte a push moves is `(tail + i) mod size <- i` for one `i < length`. -/
theorem mem_push_accesses {q : circular_queue} {a : Int} {x : Int × Int}
    (hs : q.size ≤ 1073741823) (ht0 : 0 ≤ q.tail) (ht1 : q.tail < q.size) (ha0 : 0 ≤ a)
    (ha1 : a ≤ q.size) (hx : x ∈ push_accesses q a) :
    0 ≤ x.2 ∧ x.2 < a ∧
      ((x.1 = q.tail + x.2 ∧ q.tail + x.2 < q.size) ∨
        (x.1 = q.tail + x.2 - q.size ∧ q.size ≤ q.tail + x.2)) := by
  unfold push_accesses at hx
  rw [wrapInt_eq (q.tail + a) (by omega) (by omega)] at hx
  split_ifs at hx with hw
  · simp only at hx
    rw [wrapInt_eq (q.size - q.tail) (by omega) (by omega),
      wrapInt_eq (a - (q.size - q.tail)) (by omega) (by omega)] at hx
    rcases List.mem_append.mp hx with hx | hx
    · obtain ⟨i, hi, h1, h2⟩ := mem_memcpy_accesses (by omega) (by omega) hx
      exact ⟨by omega, by omega, Or.inl ⟨by omega, by omega⟩⟩
    · obtain ⟨i, hi, h1, h2⟩ := mem_memcpy_accesses (by omega) (by omega) hx
      exact ⟨by omega, by omega, Or.inr ⟨by omega, by omega⟩⟩
  · obtain ⟨i, hi, h1, h2⟩ := mem_memcpy_accesses ha0 (by omega) hx
    exact ⟨by omega, by omega, Or.inl ⟨by omega, by omega⟩⟩

/-- Every byte a pop moves is `i <- (head + i) mod size` for one `i < length`. -/
theorem mem_pop_accesses {q : circular_queue} {a : Int} {x : Int × Int}
    (hs : q.size ≤ 1073741823) (hh0 : 0 ≤ q.head) (hh1 : q.head < q.size) (ha0 : 0 ≤ a)
    (ha1 : a ≤ q.size) (hx : x ∈ pop_accesses q a) :
    0 ≤ x.1 ∧ x.1 < a ∧
      ((x.2 = q.head + x.1 ∧ q.head + x.1 < q.size) ∨
        (x.2 = q.head + x.1 - q.size ∧ q.size ≤ q.head + x.1)) := by
  unfold pop_accesses at hx
  rw [wrapInt_eq (q.head + a) (by omega) (by omega)] at hx
  split_ifs at hx with hw
  · simp only at hx
    rw [wrapInt_eq (q.size - q.head) (by omega) (by omega),
      wrapInt_eq (a - (q.size - q.head)) (by omega) (by omega)] at hx
    rcases List.mem_append.mp hx with hx | hx
    · obtain ⟨i, hi, h1, h2⟩ := mem_memcpy_accesses (by omega) (by omega) hx
      exact ⟨by omega, by omega, Or.inl ⟨by omega, by omega⟩⟩
    · obtain ⟨i, hi, h1, h2⟩ := mem_memcpy_accesses (by omega) (by omega) hx
      exact ⟨by omega, by omega, Or.inr ⟨by omega, by omega⟩⟩
  · obtain ⟨i, hi, h1, h2⟩ := mem_memcpy_accesses ha0 (by omega) hx
    exact ⟨by omega, by omega, Or.inl ⟨by omega, by omega⟩⟩

/-- The pairs of `memcpy_accesses` are the bytes `memcpy` moves: where the copy stays inside
both blocks, every pair lies inside them and the destination holds the source byte. -/
theorem memcpy_accesses_moved {dst src r : List byte} {doff soff n : Int}
    (h : memcpy dst doff src soff n = some r) (hn : n ≤ 1073741823) :
    ∀ x ∈ memcpy_accesses doff soff n,
      0 ≤ x.1 ∧ x.1 < dst.length ∧ 0 ≤ x.2 ∧ x.2 < src.length ∧
        r.getD x.1.toNat 0 = src.getD x.2.toNat 0 := by
  obtain ⟨h1, h2, h3, h4, h5, -, h7⟩ := memcpy_some h
  intro x hx
  obtain ⟨i, hi, g1, g2⟩ := mem_memcpy_accesses h3 hn hx
  refine ⟨by omega, by omega, by omega, by omega, ?_⟩
  obtain ⟨p, hp⟩ := Int.eq_ofNat_of_zero_le (a := x.1) (by omega)
  rw [hp, Int.toNat_ofNat, h7 p, if_pos (by omega)]
  congr 1
  omega

/-- C16. For every valid state and every non-negative length, with `a` the clamped length
min(length, size - count) of a push: when tail + a > size the copy writes exactly the
size - tail bytes at the indices [tail, size), from the offsets [0, size - tail) of the
data, and then the remaining a - (size - tail) >= 0 bytes at the indices
[0, a - (size - tail)); otherwise it writes a bytes at [tail, tail + a). Every index written
lies in [0, size), every offset read lies in [0, a), and no index written holds a stored
byte. The same holds for a pop, with `b` = min(length, count), the indices read from head
and the offsets written in the region of the caller; every index read holds a stored
byte. -/
theorem split_copy_in_bounds (q : circular_queue) (n : Int) (hv : Valid q) (hn : 0 ≤ n) :
    clamp_length n (wrapInt (q.size - q.count)) = min n (q.size - q.count) ∧
      clamp_length n q.count = min n q.count ∧
      (q.size < q.tail + min n (q.size - q.count) →
        0 ≤ min n (q.size - q.count) - (q.size - q.tail) ∧
        push_accesses q (min n (q.size - q.count)) =
          ((List.range (q.size - q.tail).toNat).map fun (i : Nat) =>
            (q.tail + (i : Int), (i : Int))) ++
          (List.range (min n (q.size - q.count) - (q.size - q.tail)).toNat).map
            fun (i : Nat) => ((i : Int), q.size - q.tail + (i : Int))) ∧
      (q.tail + min n (q.size - q.count) ≤ q.size →
        push_accesses q (min n (q.size - q.count)) =
          (List.range (min n (q.size - q.count)).toNat).map fun (i : Nat) =>
            (q.tail + (i : Int), (i : Int))) ∧
      (∀ x ∈ push_accesses q (min n (q.size - q.count)),
        0 ≤ x.1 ∧ x.1 < q.size ∧ 0 ≤ x.2 ∧ x.2 < min n (q.size - q.count) ∧
          ∀ j : Nat, (j : Int) < q.count → x.1 ≠ (q.head + (j : Int)) % q.size) ∧
      (q.size < q.head + min n q.count →
        0 ≤ min n q.count - (q.size - q.head) ∧
        pop_accesses q (min n q.count) =
          ((List.range (q.size - q.head).toNat).map fun (i : Nat) =>
            ((i : Int), q.head + (i : Int))) ++
          (List.range (min n q.count - (q.size - q.head)).toNat).map
            fun (i : Nat) => (q.size - q.head + (i : Int), (i : Int))) ∧
      (q.head + min n q.count ≤ q.size →
        pop_accesses q (min n q.count) =
          (List.range (min n q.count).toNat).map fun (i : Nat) =>
            ((i : Int), q.head + (i : Int))) ∧
      (∀ x ∈ pop_accesses q (min n q.count),
        0 ≤ x.2 ∧ x.2 < q.size ∧ 0 ≤ x.1 ∧ x.1 < min n q.count ∧
          ∃ j : Nat, (j : Int) < q.count ∧ x.2 = (q.head + (j : Int)) % q.size) := by
  obtain ⟨b, hb, hlen, hs, hs0, hh0, hh1, hc0, hc1, ht0, ht1, htl⟩ := hv.unpack
  have hclamp : clamp_length n (wrapInt (q.size - q.count)) = min n (q.size - q.count) := by
    rw [wrapInt_eq (q.size - q.count) (by omega) (by omega), clamp_length_eq_min]
  have ha0 : 0 ≤ min n (q.size - q.count) := le_min hn (by omega)
  have ha1 : min n (q.size - q.count) ≤ q.size - q.count := min_le_right _ _
  have hb0 : 0 ≤ min n q.count := le_min hn hc0
  have hb1 : min n q.count ≤ q.count := min_le_right _ _
  refine ⟨hclamp, clamp_length_eq_min _ _, ?_, ?_, ?_, ?_, ?_, ?_⟩
  · intro hw
    exact ⟨by omega, push_accesses_wrap hs ht0 ht1 (by omega) hw⟩
  · intro hw
    exact push_accesses_flat hs ht0 ht1 ha0 (by omega) hw
  · intro x hx
    obtain ⟨g1, g2, g3⟩ := mem_push_accesses hs ht0 ht1 ha0 (by omega) hx
    refine ⟨by omega, by omega, g1, g2, ?_⟩
    intro j hj
    have e1 := emod_cases (q.head + (j : Int)) q.size (by omega) (by omega)
    omega
  · intro hw
    exact ⟨by omega, pop_accesses_wrap hs hh0 hh1 (by omega) hw⟩
  · intro hw
    exact pop_accesses_flat hs hh0 hh1 hb0 (by omega) hw
  · intro x hx
    obtain ⟨g1, g2, g3⟩ := mem_pop_accesses hs hh0 hh1 hb0 (by omega) hx
    refine ⟨by omega, by omega, g1, g2, ?_⟩
    obtain ⟨j, hj⟩ := Int.eq_ofNat_of_zero_le g1
    refine ⟨j, by omega, ?_⟩
    have e1 := emod_cases (q.head + (j : Int)) q.size (by omega) (by omega)
    omega

/-- The instance on the state after `configure(4); push "AB"; pop 1` (head 1, tail 2,
count 1): a push of 3 writes the indices 2, 3 and then 0, from the offsets 0, 1, 2; on the
full state that follows (head 1, count 4) a pop of 4 reads the indices 1, 2, 3 and then 0. -/
theorem split_copy_in_bounds_witness :
    push_accesses after_AB_pop1 (min 3 (after_AB_pop1.size - after_AB_pop1.count)) =
        [(2, 0), (3, 1)] ++ [(0, 2)] ∧
      pop_accesses after_CDE (min 4 after_CDE.count) = [(0, 1), (1, 2), (2, 3)] ++ [(3, 0)] :=
  ⟨((split_copy_in_bounds after_AB_pop1 3 (by decide) (by decide)).2.2.1 (by decide)).2,
    ((split_copy_in_bounds after_CDE 4 (by decide) (by decide)).2.2.2.2.2.1 (by decide)).2⟩

/-! ## C15: the notification after a configure -/

/-- No call of `SET_SIZE_OF_QUEUE` reaches a `wake_up_interruptible`. -/
theorem set_size_never_wakes (f : file) (waits : List wait_result) (q : circular_queue)
    (user : Option data) : device_ioctl_wakes f waits q SET_SIZE_OF_QUEUE user = false := by
  unfold device_ioctl_wakes
  rw [if_pos rfl]

/-- C15, the code at the failing input. A blocking push on the full queue `full_ABCD` of
capacity 4 is asleep; `configure(8)` then succeeds and leaves an empty queue of capacity 8,
but the call reaches no `wake_up_interruptible`, while a successful push and a successful
pop each reach one: the sleeping caller is not woken although count < size now holds. -/
theorem configure_sends_no_wake_up :
    device_ioctl blocking plenty [] full_ABCD PUSH_DATA 0
        (some { length := 1, data := bytes "E" }) = result.blocked full_ABCD ∧
      device_ioctl blocking plenty [] full_ABCD SET_SIZE_OF_QUEUE 8 none =
        result.ret 0 empty8 none ∧
      device_ioctl_wakes blocking [] full_ABCD SET_SIZE_OF_QUEUE none = false ∧
      empty8.count < empty8.size ∧
      device_ioctl_wakes blocking [] empty4 PUSH_DATA
        (some { length := 2, data := bytes "AB" }) = true ∧
      device_ioctl_wakes blocking [] holding_AB POP_DATA
        (some { length := 1, data := [0] }) = true := by
  decide

/-! ## C17: cursor consistency -/

theorem reachableOk_holding_AB : ReachableOk holding_AB :=
  ReachableOk.step nonblocking plenty [] empty4 PUSH_DATA 0
    (some { length := 2, data := bytes "AB" }) holding_AB
    (some { length := 2, data := bytes "AB" }) reachableOk_empty4
    (fun _ hw => absurd hw (List.not_mem_nil _)) (Or.inr (Or.inl rfl))
    (fun d hd => by rw [← Option.some.inj hd]; decide) (by decide)

/-- C17. In every state with size > 0 reached from the initial state by successful
configure, push and pop calls with non-negative lengths, tail == (head + count) mod size;
in particular head == tail exactly when the queue is empty or full. -/
theorem cursor_consistency (q : circular_queue) (h : ReachableOk q) (hs : 0 < q.size) :
    q.tail = (q.head + q.count) % q.size ∧
      (q.head = q.tail ↔ q.count = 0 ∨ q.count = q.size) := by
  have hv : Valid q := by
    rcases h.reachable.inv with ⟨h1, _⟩ | hv
    · omega
    · exact hv
  obtain ⟨b, hb, hlen, hk, hs0, hh0, hh1, hc0, hc1, ht0, ht1, htl⟩ := hv.unpack
  refine ⟨hv.2.2.2.2.2.2.2, ?_, ?_⟩
  · intro he
    omega
  · intro he
    omega

/-- The instance on the state reached by `configure(4); push "AB"`: tail is 2 = (0 + 2)
mod 4, and head differs from tail as the queue is neither empty nor full. -/
theorem cursor_consistency_witness :
    ReachableOk holding_AB ∧ 0 < holding_AB.size ∧
      holding_AB.tail = (holding_AB.head + holding_AB.count) % holding_AB.size ∧
      (holding_AB.head = holding_AB.tail ↔
        holding_AB.count = 0 ∨ holding_AB.count = holding_AB.size) :=
  ⟨reachableOk_holding_AB, by decide,
    cursor_consistency holding_AB reachableOk_holding_AB (by decide)⟩

/-! ## C18: signed request lengths -/

theorem memcpy_neg (dst src : List byte) (doff soff n : Int) (hn : n < 0) :
    memcpy dst doff src soff n = none := by
  unfold memcpy
  rw [if_neg (by omega)]

theorem memcpy_to_null (doff : Int) (src : List byte) (soff n : Int) :
    memcpy_to none doff src soff n = if n = 0 then some none else none :=
  rfl

theorem memcpy_from_null (dst : List byte) (doff soff n : Int) :
    memcpy_from dst doff none soff n = if n = 0 then some dst else none :=
  rfl

/-- Through a NULL buffer, a push that does not fault copies nothing. -/
theorem push_copy_null {q : circular_queue} {d : data} {k : Int} {x : Option (List byte)}
    (hb : q.buffer = none) (hs : q.size ≤ 2147483647) (ht0 : 0 ≤ q.tail)
    (ht1 : q.tail < q.size) (h : push_copy q d k = some x) : k = 0 ∧ x = none := by
  unfold push_copy at h
  rw [hb] at h
  simp only [memcpy_to_null] at h
  by_cases hw : wrapInt (q.tail + k) > q.size
  · rw [if_pos hw] at h
    have hfp : wrapInt (q.size - q.tail) ≠ 0 := by
      rw [wrapInt_eq (q.size - q.tail) (by omega) (by omega)]
      omega
    rw [if_neg hfp] at h
    simp at h
  · rw [if_neg hw] at h
    by_cases hk : k = 0
    · rw [if_pos hk] at h
      exact ⟨hk, (Option.some.inj h).symm⟩
    · rw [if_neg hk] at h
      simp at h

/-- Through a NULL buffer, a pop that does not fault copies nothing. -/
theorem pop_copy_null {q : circular_queue} {d : data} {k : Int} {r : List byte}
    (hb : q.buffer = none) (hs : q.size ≤ 2147483647) (hh0 : 0 ≤ q.head)
    (hh1 : q.head < q.size) (h : pop_copy q d k = some r) : k = 0 ∧ r = d.data := by
  unfold pop_copy at h
  rw [hb] at h
  simp only [memcpy_from_null] at h
  by_cases hw : wrapInt (q.head + k) > q.size
  · rw [if_pos hw] at h
    have hfp : wrapInt (q.size - q.head) ≠ 0 := by
      rw [wrapInt_eq (q.size - q.head) (by omega) (by omega)]
      omega
    rw [if_neg hfp] at h
    simp at h
  · rw [if_neg hw] at h
    by_cases hk : k = 0
    · rw [if_pos hk] at h
      exact ⟨hk, (Option.some.inj h).symm⟩
    · rw [if_neg hk] at h
      simp at h

/-- With a negative length and an allocated buffer, the length reaches `memcpy` unclamped and
the copy of a push leaves the buffer. -/
theorem push_copy_neg {q : circular_queue} {d : data} {k : Int} {b : List byte}
    (hb : q.buffer = some b) (hs : q.size ≤ 1073741823) (ht0 : 0 ≤ q.tail)
    (ht1 : q.tail < q.size) (hk0 : -2147483648 ≤ k) (hk1 : k < 0) :
    push_copy q d k = none := by
  rw [push_copy_of_buffer hb, wrapInt_eq (q.tail + k) (by omega) (by omega),
    if_neg (by omega), memcpy_neg _ _ _ _ _ hk1]
  rfl

/-- With a negative length and an allocated buffer, the copy of a pop leaves the buffer. -/
theorem pop_copy_neg {q : circular_queue} {d : data} {k : Int} {b : List byte}
    (hb : q.buffer = some b) (hs : q.size ≤ 1073741823) (hh0 : 0 ≤ q.head)
    (hh1 : q.head < q.size) (hk0 : -2147483648 ≤ k) (hk1 : k < 0) :
    pop_copy q d k = none := by
  rw [pop_copy_of_buffer hb, wrapInt_eq (q.head + k) (by omega) (by omega),
    if_neg (by omega), memcpy_neg _ _ _ _ _ hk1]

/-- The bounds of a state of the claim, with the two shapes of its buffer. -/
theorem Bounded.facts {q : circular_queue} (hq : Bounded q) :
    ((q.buffer = none ∧ q.size ≤ 2147483647) ∨
        (∃ b, q.buffer = some b ∧ (b.length : Int) = q.size ∧ q.size ≤ 1073741823)) ∧
      0 < q.size ∧ 0 ≤ q.count ∧ q.count ≤ q.size ∧ 0 ≤ q.head ∧ q.head < q.size ∧
      0 ≤ q.tail ∧ q.tail < q.size := by
  obtain ⟨hb, hrest⟩ := hq
  refine ⟨?_, hrest⟩
  rcases hb with ⟨hb, hs⟩ | ⟨hb, hk⟩
  · exact Or.inl ⟨hb, hs⟩
  · obtain ⟨b, hb1, hb2⟩ := Option.map_eq_some'.mp hb
    exact Or.inr ⟨b, hb1, hb2, le_trans hk KMALLOC_MAX_SIZE_le⟩

/-- A push that returns, on a state of the claim and with any `int` length: it returns 0,
its length was not negative, the bounds hold again, and count grew by between 0 and the
length. -/
theorem push_data_bounded {q q' : circular_queue} {d : data} {c : Int} {u : Option data}
    (hq : Bounded q) (h0 : INT_MIN ≤ d.length) (h1 : d.length ≤ INT_MAX)
    (h : push_data q d = result.ret c q' u) :
    c = 0 ∧ 0 ≤ d.length ∧ Bounded q' ∧ 0 ≤ q'.count - q.count ∧
      q'.count - q.count ≤ max d.length 0 := by
  obtain ⟨hbuf, hs0, hc0, hc1, hh0, hh1, ht0, ht1⟩ := hq.facts
  unfold INT_MIN at h0
  unfold INT_MAX at h1
  have hcode := push_data_code h
  unfold push_data at h
  simp only at h
  rcases hbuf with ⟨hb, hs⟩ | ⟨b, hb, hlen, hs⟩
  · -- NULL buffer: only a copy of 0 bytes returns
    rw [wrapInt_eq (q.size - q.count) (by omega) (by omega)] at h
    generalize hk : clamp_length d.length (q.size - q.count) = k at h
    cases hc : push_copy q d k with
    | none => rw [hc] at h; simp at h
    | some x =>
      obtain ⟨hk0, rfl⟩ := push_copy_null hb hs ht0 ht1 hc
      subst hk0
      rw [hc, add_zero, add_zero, wrapInt_eq q.tail (by omega) (by omega),
        wrapInt_eq q.count (by omega) (by omega), c_mod_nonneg _ _ ht0 hs0,
        Int.emod_eq_of_lt ht0 ht1] at h
      simp only [result.ret.injEq] at h
      obtain ⟨-, h2, -⟩ := h
      have hlen0 : 0 ≤ d.length := by
        unfold clamp_length at hk
        split_ifs at hk <;> omega
      subst h2
      refine ⟨hcode, hlen0, ?_, by simp, ?_⟩
      · exact ⟨Or.inl ⟨rfl, hs⟩, hs0, hc0, hc1, hh0, hh1, ht0, ht1⟩
      · simp only [sub_self]
        exact le_max_right _ _
  · by_cases hneg : d.length < 0
    · have hcl : clamp_length d.length (wrapInt (q.size - q.count)) = d.length := by
        rw [wrapInt_eq (q.size - q.count) (by omega) (by omega)]
        unfold clamp_length
        rw [if_neg (by omega)]
      rw [hcl, push_copy_neg hb hs ht0 ht1 h0 hneg] at h
      simp at h
    · have hn : 0 ≤ d.length := by omega
      rw [wrapInt_eq (q.size - q.count) (by omega) (by omega), clamp_length_eq_min] at h
      have hk0 : 0 ≤ min d.length (q.size - q.count) := le_min hn (by omega)
      have hk1 : min d.length (q.size - q.count) ≤ q.size - q.count := min_le_right _ _
      have hk2 : min d.length (q.size - q.count) ≤ d.length := min_le_left _ _
      generalize min d.length (q.size - q.count) = k at h hk0 hk1 hk2
      rw [wrapInt_eq (q.tail + k) (by omega) (by omega), c_mod_nonneg _ _ (by omega) hs0,
        wrapInt_eq (q.count + k) (by omega) (by omega)] at h
      cases hc : push_copy q d k with
      | none => rw [hc] at h; simp at h
      | some x =>
        obtain ⟨r, rfl⟩ := push_copy_block hb hc
        rw [hc] at h
        simp only [result.ret.injEq] at h
        obtain ⟨-, h2, -⟩ := h
        obtain ⟨-, g2, -⟩ := push_copy_some hb hlen hs ht0 ht1 hk0 (by omega) hc
        have e1 := emod_cases (q.tail + k) q.size (by omega) (by omega)
        have hmax : d.length ≤ max d.length 0 := le_max_left _ _
        subst h2
        refine ⟨hcode, hn, ?_, by simp only; omega, by simp only; omega⟩
        refine ⟨Or.inr ⟨?_, hq.1.elim (fun hnull => ?_) (fun hblk => hblk.2)⟩, hs0,
          by simp only; omega, by simp only; omega, hh0, hh1, by simp only; omega,
          by simp only; omega⟩
        · simp only [Option.map_some', Option.some.injEq]
          omega
        · rw [hb] at hnull
          exact absurd hnull.1 (by simp)

/-- A pop that returns, on a state of the claim and with any `int` length: it returns 0,
its length was not negative, the bounds hold again, and count fell by between 0 and the
length. -/
theorem pop_data_bounded {q q' : circular_queue} {d : data} {c : Int} {u : Option data}
    (hq : Bounded q) (h0 : INT_MIN ≤ d.length) (h1 : d.length ≤ INT_MAX)
    (h : pop_data q d = result.ret c q' u) :
    c = 0 ∧ 0 ≤ d.length ∧ Bounded q' ∧ 0 ≤ q.count - q'.count ∧
      q.count - q'.count ≤ max d.length 0 := by
  obtain ⟨hbuf, hs0, hc0, hc1, hh0, hh1, ht0, ht1⟩ := hq.facts
  unfold INT_MIN at h0
  unfold INT_MAX at h1
  have hcode := pop_data_code h
  unfold pop_data at h
  simp only at h
  rcases hbuf with ⟨hb, hs⟩ | ⟨b, hb, hlen, hs⟩
  · generalize hk : clamp_length d.length q.count = k at h
    cases hc : pop_copy q d k with
    | none => rw [hc] at h; simp at h
    | some x =>
      obtain ⟨hk0, -⟩ := pop_copy_null hb hs hh0 hh1 hc
      subst hk0
      rw [hc, add_zero, sub_zero, wrapInt_eq q.head (by omega) (by omega),
        wrapInt_eq q.count (by omega) (by omega), c_mod_nonneg _ _ hh0 hs0,
        Int.emod_eq_of_lt hh0 hh1] at h
      simp only [result.ret.injEq] at h
      obtain ⟨-, h2, -⟩ := h
      have hlen0 : 0 ≤ d.length := by
        unfold clamp_length at hk
        split_ifs at hk <;> omega
      subst h2
      refine ⟨hcode, hlen0, ?_, by simp, ?_⟩
      · exact ⟨Or.inl ⟨hb, hs⟩, hs0, hc0, hc1, hh0, hh1, ht0, ht1⟩
      · simp only [sub_self]
        exact le_max_right _ _
  · by_cases hneg : d.length < 0
    · have hcl : clamp_length d.length q.count = d.length := by
        unfold clamp_length
        rw [if_neg (by omega)]
      rw [hcl, pop_copy_neg hb hs hh0 hh1 h0 hneg] at h
      simp at h
    · have hn : 0 ≤ d.length := by omega
      rw [clamp_length_eq_min] at h
      have hk0 : 0 ≤ min d.length q.count := le_min hn hc0
      have hk1 : min d.length q.count ≤ q.count := min_le_right _ _
      have hk2 : min d.length q.count ≤ d.length := min_le_left _ _
      generalize min d.length q.count = k at h hk0 hk1 hk2
      rw [wrapInt_eq (q.head + k) (by omega) (by omega), c_mod_nonneg _ _ (by omega) hs0,
        wrapInt_eq (q.count - k) (by omega) (by omega)] at h
      cases hc : pop_copy q d k with
      | none => rw [hc] at h; simp at h
      | some x =>
        rw [hc] at h
        simp only [result.ret.injEq] at h
        obtain ⟨-, h2, -⟩ := h
        have e1 := emod_cases (q.head + k) q.size (by omega) (by omega)
        have hmax : d.length ≤ max d.length 0 := le_max_left _ _
        subst h2
        refine ⟨hcode, hn, ?_, by simp only; omega, by simp only; omega⟩
        exact ⟨hq.1, hs0, by simp only; omega, by simp only; omega, by simp only; omega,
          by simp only; omega, ht0, ht1⟩

theorem push_data_ret_or_oops (q : circular_queue) (d : data) :
    push_data q d = result.oops ∨ ∃ c q' u, push_data q d = result.ret c q' u := by
  unfold push_data
  simp only
  split
  · exact Or.inr ⟨_, _, _, rfl⟩
  · exact Or.inl rfl

theorem pop_data_ret_or_oops (q : circular_queue) (d : data) :
    pop_data q d = result.oops ∨ ∃ c q' u, pop_data q d = result.ret c q' u := by
  unfold pop_data
  simp only
  split
  · exact Or.inr ⟨_, _, _, rfl⟩
  · exact Or.inl rfl

/-- With a negative length, the critical sections of push and pop pass the length on to
`memcpy` unclamped and the copy faults: neither call returns. -/
theorem negative_length_oops {q : circular_queue} {d : data} (hq : Bounded q)
    (h0 : INT_MIN ≤ d.length) (h1 : d.length < 0) :
    push_data q d = result.oops ∧ pop_data q d = result.oops := by
  have hmax : d.length ≤ INT_MAX := by unfold INT_MAX; omega
  constructor
  · rcases push_data_ret_or_oops q d with h | ⟨c, q', u, h⟩
    · exact h
    · exact absurd (push_data_bounded hq h0 hmax h).2.1 (by omega)
  · rcases pop_data_ret_or_oops q d with h | ⟨c, q', u, h⟩
    · exact h
    · exact absurd (pop_data_bounded hq h0 hmax h).2.1 (by omega)

/-- With a non-negative length, an allocated buffer and a data region that holds the bytes
to store, the critical section of a push returns 0. -/
theorem push_data_returns {q : circular_queue} {d : data} (hq : Bounded q)
    (hb : q.buffer ≠ none) (hn : 0 ≤ d.length)
    (hd : min d.length (q.size - q.count) ≤ d.data.length) :
    ∃ q', push_data q d = result.ret 0 q' (some d) := by
  obtain ⟨hbuf, hs0, hc0, hc1, hh0, hh1, ht0, ht1⟩ := hq.facts
  rcases hbuf with ⟨hnull, -⟩ | ⟨b, hb1, hlen, hs⟩
  · exact absurd hnull hb
  · unfold push_data
    simp only
    rw [wrapInt_eq (q.size - q.count) (by omega) (by omega), clamp_length_eq_min]
    have hk0 : 0 ≤ min d.length (q.size - q.count) := le_min hn (by omega)
    have hk1 : min d.length (q.size - q.count) ≤ q.size - q.count := min_le_right _ _
    generalize min d.length (q.size - q.count) = k at hd hk0 hk1 ⊢
    rw [wrapInt_eq (q.tail + k) (by omega) (by omega), c_mod_nonneg _ _ (by omega) hs0]
    obtain ⟨r, hr⟩ := push_copy_isSome (d := d) hb1 hlen hs ht0 ht1 hk0 (by omega) hd
    rw [hr]
    exact ⟨_, rfl⟩

/-- With a non-negative length, an allocated buffer and a destination region with room for
the bytes to hand out, the critical section of a pop returns 0. -/
theorem pop_data_returns {q : circular_queue} {d : data} (hq : Bounded q)
    (hb : q.buffer ≠ none) (hn : 0 ≤ d.length) (hd : min d.length q.count ≤ d.data.length) :
    ∃ q' r, pop_data q d = result.ret 0 q' (some { length := d.length, data := r }) := by
  obtain ⟨hbuf, hs0, hc0, hc1, hh0, hh1, ht0, ht1⟩ := hq.facts
  rcases hbuf with ⟨hnull, -⟩ | ⟨b, hb1, hlen, hs⟩
  · exact absurd hnull hb
  · unfold pop_data
    simp only
    rw [clamp_length_eq_min]
    have hk0 : 0 ≤ min d.length q.count := le_min hn hc0
    have hk1 : min d.length q.count ≤ q.count := min_le_right _ _
    generalize min d.length q.count = k at hd hk0 hk1 ⊢
    rw [wrapInt_eq (q.head + k) (by omega) (by omega), c_mod_nonneg _ _ (by omega) hs0]
    obtain ⟨r, hr⟩ := pop_copy_isSome (d := d) hb1 hlen hs hh0 hh1 hk0 (by omega) hd
    rw [hr]
    exact ⟨_, _, rfl⟩

/-- C18. The length field is a signed `int`. For every value of it and every state with
size > 0, 0 <= count <= size and head, tail in [0, size) (the buffer an allocated block of
size bytes, or NULL after a failed configure): every successful push (a call that returns
0, be it after sleeps that ended in such states) ran its critical section on a state `qb`,
the one it was issued on when that had room, and transferred count' - qb.count bytes,
between 0 and max(length, 0); the state left again has 0 <= count <= size and head, tail in
[0, size); so a push never decreases count. Likewise a successful pop transferred
qb.count - count' bytes, between 0 and max(length, 0), and never increases count. A
successful call has a non-negative length: with a negative length the length reaches
`memcpy` unclamped, the copy faults and the call does not return. With a non-negative
length, an allocated buffer and a region of the caller that holds the bytes to move, the
call does return 0. -/
theorem signed_lengths (f : file) (mm : allocator) (waits : List wait_result)
    (q : circular_queue) (arg : Nat) (d : data) (hq : Bounded q)
    (h0 : INT_MIN ≤ d.length) (h1 : d.length ≤ INT_MAX) :
    (∀ q' u, (∀ w, wait_result.woken w ∈ waits → Bounded w) →
        device_ioctl f mm waits q PUSH_DATA arg (some d) = result.ret 0 q' u →
        ∃ qb, (qb = q ∨ wait_result.woken qb ∈ waits) ∧ (q.count ≠ q.size → qb = q) ∧
          Bounded q' ∧ 0 ≤ q'.count - qb.count ∧ q'.count - qb.count ≤ max d.length 0 ∧
          qb.count ≤ q'.count ∧ 0 ≤ d.length) ∧
      (∀ q' u, (∀ w, wait_result.woken w ∈ waits → Bounded w) →
        device_ioctl f mm waits q POP_DATA arg (some d) = result.ret 0 q' u →
        ∃ qb, (qb = q ∨ wait_result.woken qb ∈ waits) ∧ (q.count ≠ 0 → qb = q) ∧
          Bounded q' ∧ 0 ≤ qb.count - q'.count ∧ qb.count - q'.count ≤ max d.length 0 ∧
          q'.count ≤ qb.count ∧ 0 ≤ d.length) ∧
      (d.length < 0 →
        (q.count ≠ q.size →
          device_ioctl f mm waits q PUSH_DATA arg (some d) = result.oops) ∧
        (q.count ≠ 0 → device_ioctl f mm waits q POP_DATA arg (some d) = result.oops)) ∧
      (0 ≤ d.length → q.buffer ≠ none →
        (q.count ≠ q.size → min d.length (q.size - q.count) ≤ d.data.length →
          ∃ q', device_ioctl f mm waits q PUSH_DATA arg (some d) =
            result.ret 0 q' (some d)) ∧
        (q.count ≠ 0 → min d.length q.count ≤ d.data.length →
          ∃ q' r, device_ioctl f mm waits q POP_DATA arg (some d) =
            result.ret 0 q' (some { length := d.length, data := r }))) := by
  refine ⟨?_, ?_, ?_, ?_⟩
  · intro q' u hw h
    rw [ioctl_push] at h
    cases hp : push_wait f (some d) q waits with
    | inl r =>
      rw [hp] at h
      simp only at h
      subst h
      obtain ⟨-, g | g⟩ := push_wait_inl f _ waits q q' 0 u hp
      · exact absurd g.1 (by decide)
      · exact absurd g.1 (by decide)
    | inr qb =>
      rw [hp] at h
      simp only at h
      obtain ⟨-, g2⟩ := push_wait_inr f _ waits q qb hp
      have hqb : Bounded qb := by
        rcases g2 with g2 | g2
        · rw [g2]; exact hq
        · exact hw qb g2
      obtain ⟨-, b1, b2, b3, b4⟩ := push_data_bounded hqb h0 h1 h
      refine ⟨qb, g2, ?_, b2, b3, b4, by omega, b1⟩
      intro hne
      rw [push_wait_of_ne f _ q waits hne] at hp
      exact (Sum.inr.inj hp).symm
  · intro q' u hw h
    rw [ioctl_pop] at h
    cases hp : pop_wait f (some d) q waits with
    | inl r =>
      rw [hp] at h
      simp only at h
      subst h
      obtain ⟨-, g | g⟩ := pop_wait_inl f _ waits q q' 0 u hp
      · exact absurd g.1 (by decide)
      · exact absurd g.1 (by decide)
    | inr qb =>
      rw [hp] at h
      simp only at h
      obtain ⟨-, g2⟩ := pop_wait_inr f _ waits q qb hp
      have hqb : Bounded qb := by
        rcases g2 with g2 | g2
        · rw [g2]; exact hq
        · exact hw qb g2
      obtain ⟨-, b1, b2, b3, b4⟩ := pop_data_bounded hqb h0 h1 h
      refine ⟨qb, g2, ?_, b2, b3, b4, by omega, b1⟩
      intro hne
      rw [pop_wait_of_ne f _ q waits hne] at hp
      exact (Sum.inr.inj hp).symm
  · intro hneg
    constructor
    · intro hne
      rw [ioctl_push_of_ne f mm waits q arg d hne]
      exact (negative_length_oops hq h0 hneg).1
    · intro hne
      rw [ioctl_pop_of_ne f mm waits q arg d hne]
      exact (negative_length_oops hq h0 hneg).2
  · intro hn hb
    constructor
    · intro hne hd
      rw [ioctl_push_of_ne f mm waits q arg d hne]
      exact push_data_returns hq hb hn hd
    · intro hne hd
      rw [ioctl_pop_of_ne f mm waits q arg d hne]
      exact pop_data_returns hq hb hn hd

/-- The instances on the queue `holding_AB` (capacity 4, two bytes stored): a push of
length 5 returns 0, keeps the bounds and stores between 0 and 5 bytes; a push and a pop of
length -1 fault. -/
theorem signed_lengths_witness :
    (∃ q', device_ioctl nonblocking plenty [] holding_AB PUSH_DATA 0
          (some { length := 5, data := bytes "CDEFG" }) =
          result.ret 0 q' (some { length := 5, data := bytes "CDEFG" }) ∧
        Bounded q' ∧ 0 ≤ q'.count - holding_AB.count ∧
        q'.count - holding_AB.count ≤ max 5 0) ∧
      device_ioctl nonblocking plenty [] holding_AB PUSH_DATA 0
        (some { length := -1, data := bytes "XYZ" }) = result.oops ∧
      device_ioctl nonblocking plenty [] holding_AB POP_DATA 0
        (some { length := -1, data := bytes "XYZ" }) = result.oops := by
  have hpos := signed_lengths nonblocking plenty [] holding_AB 0
    { length := 5, data := bytes "CDEFG" } (by decide) (by decide) (by decide)
  have hneg := signed_lengths nonblocking plenty [] holding_AB 0
    { length := -1, data := bytes "XYZ" } (by decide) (by decide) (by decide)
  refine ⟨?_, (hneg.2.2.1 (by decide)).1 (by decide), (hneg.2.2.1 (by decide)).2 (by decide)⟩
  obtain ⟨q', hq'⟩ := (hpos.2.2.2 (by decide) (by decide)).1 (by decide) (by decide)
  obtain ⟨qb, -, hqb, b1, b2, b3, -, -⟩ :=
    hpos.1 q' _ (fun _ hw => absurd hw (List.not_mem_nil _)) hq'
  obtain rfl := hqb (by decide)
  exact ⟨q', hq', b1, b2, b3⟩

/-- The calls with `length = -1` on `holding_AB`, step by step: the bound checks leave the
length at -1, `memcpy` receives it as 2^64 - 1 bytes, and both calls fault. -/
theorem negative_length_run :
    clamp_length (-1) (wrapInt (holding_AB.size - holding_AB.count)) = -1 ∧
      clamp_length (-1) holding_AB.count = -1 ∧
      size_t (-1) = 18446744073709551615 ∧
      device_ioctl nonblocking plenty [] holding_AB PUSH_DATA 0
        (some { length := -1, data := bytes "XYZ" }) = result.oops ∧
      device_ioctl nonblocking plenty [] holding_AB POP_DATA 0
        (some { length := -1, data := bytes "XYZ" }) = result.oops := by
  decide

/-- The calls on the state `lost_AB` a failed configure leaves (no buffer, size 8, count 2):
a push and a pop of length 0 copy nothing through the NULL buffer and return 0 with the
state as it was; a pop of length 2 reads through the NULL buffer and faults. -/
theorem null_buffer_run :
    Bounded lost_AB ∧
      device_ioctl nonblocking plenty [] lost_AB PUSH_DATA 0
        (some { length := 0, data := [] }) =
        result.ret 0 lost_AB (some { length := 0, data := [] }) ∧
      device_ioctl nonblocking plenty [] lost_AB POP_DATA 0
        (some { length := 0, data := [] }) =
        result.ret 0 lost_AB (some { length := 0, data := [] }) ∧
      device_ioctl nonblocking plenty [] lost_AB POP_DATA 0
        (some { length := 2, data := [0, 0] }) = result.oops := by
  decide

end CircularQueue
